import Mathlib

/-!
Verification development for the GPU update-and-constrain pipeline declared in
`src/gromacs/mdlib/update_constrain_cuda.h` (class `gmx::UpdateConstrainCuda`).
The repository snapshot contains only the declaration surface of the class; the
numerical kernels themselves (leapfrog integrator, LINCS-style pairwise
constraint solver, SETTLE-style rigid-triplet solver, PBC transform, virial
accumulation, stream enqueueing) are therefore modelled from the design
specification, faithfully to its words, as a shallow embedding.

Vectors hold exact field elements (`ℚ` or `ℝ`); the solvers, which use square
roots, are instantiated at `ℝ`.
-/

set_option linter.unusedSectionVars false

namespace UCGpu

/-- A 3-component vector, the `float3` of the device kernels, over an
arbitrary scalar type. -/
structure V3 (α : Type) where
  x : α
  y : α
  z : α
deriving DecidableEq, Repr

namespace V3

variable {α : Type} [Field α]

@[ext] theorem ext3 {v w : V3 α} (hx : v.x = w.x) (hy : v.y = w.y) (hz : v.z = w.z) : v = w := by
  cases v; cases w; simp_all

instance : Zero (V3 α) := ⟨⟨0, 0, 0⟩⟩

instance : Add (V3 α) := ⟨fun v w => ⟨v.x + w.x, v.y + w.y, v.z + w.z⟩⟩

instance : Neg (V3 α) := ⟨fun v => ⟨-v.x, -v.y, -v.z⟩⟩

instance : Sub (V3 α) := ⟨fun v w => ⟨v.x - w.x, v.y - w.y, v.z - w.z⟩⟩

instance : SMul α (V3 α) := ⟨fun a v => ⟨a * v.x, a * v.y, a * v.z⟩⟩

@[simp] theorem zero_x : (0 : V3 α).x = 0 := rfl

@[simp] theorem zero_y : (0 : V3 α).y = 0 := rfl

@[simp] theorem zero_z : (0 : V3 α).z = 0 := rfl

@[simp] theorem add_x (v w : V3 α) : (v + w).x = v.x + w.x := rfl

@[simp] theorem add_y (v w : V3 α) : (v + w).y = v.y + w.y := rfl

@[simp] theorem add_z (v w : V3 α) : (v + w).z = v.z + w.z := rfl

@[simp] theorem neg_x (v : V3 α) : (-v).x = -v.x := rfl

@[simp] theorem neg_y (v : V3 α) : (-v).y = -v.y := rfl

@[simp] theorem neg_z (v : V3 α) : (-v).z = -v.z := rfl

@[simp] theorem sub_x (v w : V3 α) : (v - w).x = v.x - w.x := rfl

@[simp] theorem sub_y (v w : V3 α) : (v - w).y = v.y - w.y := rfl

@[simp] theorem sub_z (v w : V3 α) : (v - w).z = v.z - w.z := rfl

@[simp] theorem smul_x (a : α) (v : V3 α) : (a • v).x = a * v.x := rfl

@[simp] theorem smul_y (a : α) (v : V3 α) : (a • v).y = a * v.y := rfl

@[simp] theorem smul_z (a : α) (v : V3 α) : (a • v).z = a * v.z := rfl

instance : AddCommGroup (V3 α) where
  add_assoc a b c := by ext <;> simp <;> ring
  zero_add a := by ext <;> simp
  add_zero a := by ext <;> simp
  add_comm a b := by ext <;> simp <;> ring
  neg_add_cancel a := by ext <;> simp
  sub_eq_add_neg a b := by ext <;> simp <;> ring
  nsmul := nsmulRec
  zsmul := zsmulRec

instance : Module α (V3 α) where
  one_smul v := by ext <;> simp
  mul_smul a b v := by ext <;> simp <;> ring
  smul_zero a := by ext <;> simp
  smul_add a v w := by ext <;> simp <;> ring
  add_smul a b v := by ext <;> simp <;> ring
  zero_smul v := by ext <;> simp

/-- Euclidean inner product of two 3-vectors. -/
def dot (v w : V3 α) : α := v.x * w.x + v.y * w.y + v.z * w.z

/-- Squared Euclidean norm. -/
def normSq (v : V3 α) : α := dot v v

/-- Cross product of two 3-vectors. -/
def cross (v w : V3 α) : V3 α :=
  ⟨v.y * w.z - v.z * w.y, v.z * w.x - v.x * w.z, v.x * w.y - v.y * w.x⟩

theorem dot_comm (v w : V3 α) : dot v w = dot w v := by
  simp [dot]; ring

@[simp] theorem dot_zero_left (v : V3 α) : dot 0 v = 0 := by
  simp [dot]

@[simp] theorem dot_zero_right (v : V3 α) : dot v 0 = 0 := by
  simp [dot]

theorem dot_add_left (u v w : V3 α) : dot (u + v) w = dot u w + dot v w := by
  simp [dot]; ring

theorem dot_add_right (u v w : V3 α) : dot u (v + w) = dot u v + dot u w := by
  simp [dot]; ring

theorem dot_sub_left (u v w : V3 α) : dot (u - v) w = dot u w - dot v w := by
  simp [dot]; ring

theorem dot_sub_right (u v w : V3 α) : dot u (v - w) = dot u v - dot u w := by
  simp [dot]; ring

theorem dot_smul_left (a : α) (v w : V3 α) : dot (a • v) w = a * dot v w := by
  simp [dot]; ring

theorem dot_smul_right (a : α) (v w : V3 α) : dot v (a • w) = a * dot v w := by
  simp [dot]; ring

theorem dot_cross_left (v w : V3 α) : dot v (cross v w) = 0 := by
  simp [dot, cross]; ring

theorem dot_cross_right (v w : V3 α) : dot w (cross v w) = 0 := by
  simp [dot, cross]; ring

/-- Lagrange identity specialised to the squared norm of a cross product. -/
theorem normSq_cross (v w : V3 α) :
    normSq (cross v w) = normSq v * normSq w - dot v w * dot v w := by
  simp [normSq, dot, cross]; ring

end V3

/-- A 3 by 3 matrix (`matrix` / `tensor` of the source), stored entrywise. -/
structure M3 (α : Type) where
  xx : α
  xy : α
  xz : α
  yx : α
  yy : α
  yz : α
  zx : α
  zy : α
  zz : α
deriving DecidableEq, Repr

namespace M3

variable {α : Type} [Field α]

@[ext] theorem ext9 {m n : M3 α}
    (h1 : m.xx = n.xx) (h2 : m.xy = n.xy) (h3 : m.xz = n.xz)
    (h4 : m.yx = n.yx) (h5 : m.yy = n.yy) (h6 : m.yz = n.yz)
    (h7 : m.zx = n.zx) (h8 : m.zy = n.zy) (h9 : m.zz = n.zz) : m = n := by
  cases m; cases n; simp_all

instance : Zero (M3 α) := ⟨⟨0, 0, 0, 0, 0, 0, 0, 0, 0⟩⟩

instance : Add (M3 α) :=
  ⟨fun m n => ⟨m.xx + n.xx, m.xy + n.xy, m.xz + n.xz,
               m.yx + n.yx, m.yy + n.yy, m.yz + n.yz,
               m.zx + n.zx, m.zy + n.zy, m.zz + n.zz⟩⟩

instance : Neg (M3 α) :=
  ⟨fun m => ⟨-m.xx, -m.xy, -m.xz, -m.yx, -m.yy, -m.yz, -m.zx, -m.zy, -m.zz⟩⟩

instance : SMul α (M3 α) :=
  ⟨fun a m => ⟨a * m.xx, a * m.xy, a * m.xz,
               a * m.yx, a * m.yy, a * m.yz,
               a * m.zx, a * m.zy, a * m.zz⟩⟩

@[simp] theorem zero_xy : (0 : M3 α).xy = 0 := rfl

@[simp] theorem zero_yx : (0 : M3 α).yx = 0 := rfl

@[simp] theorem add_xy (m n : M3 α) : (m + n).xy = m.xy + n.xy := rfl

@[simp] theorem add_yx (m n : M3 α) : (m + n).yx = m.yx + n.yx := rfl

@[simp] theorem smul_xy (a : α) (m : M3 α) : (a • m).xy = a * m.xy := rfl

@[simp] theorem smul_yx (a : α) (m : M3 α) : (a • m).yx = a * m.yx := rfl

@[simp] theorem zero_xz : (0 : M3 α).xz = 0 := rfl

@[simp] theorem zero_zx : (0 : M3 α).zx = 0 := rfl

@[simp] theorem zero_yz : (0 : M3 α).yz = 0 := rfl

@[simp] theorem zero_zy : (0 : M3 α).zy = 0 := rfl

@[simp] theorem add_xz (m n : M3 α) : (m + n).xz = m.xz + n.xz := rfl

@[simp] theorem add_zx (m n : M3 α) : (m + n).zx = m.zx + n.zx := rfl

@[simp] theorem add_yz (m n : M3 α) : (m + n).yz = m.yz + n.yz := rfl

@[simp] theorem add_zy (m n : M3 α) : (m + n).zy = m.zy + n.zy := rfl

@[simp] theorem smul_xz (a : α) (m : M3 α) : (a • m).xz = a * m.xz := rfl

@[simp] theorem smul_zx (a : α) (m : M3 α) : (a • m).zx = a * m.zx := rfl

@[simp] theorem smul_yz (a : α) (m : M3 α) : (a • m).yz = a * m.yz := rfl

@[simp] theorem smul_zy (a : α) (m : M3 α) : (a • m).zy = a * m.zy := rfl

@[simp] theorem zero_xx : (0 : M3 α).xx = 0 := rfl

@[simp] theorem zero_yy : (0 : M3 α).yy = 0 := rfl

@[simp] theorem zero_zz : (0 : M3 α).zz = 0 := rfl

@[simp] theorem add_xx (m n : M3 α) : (m + n).xx = m.xx + n.xx := rfl

@[simp] theorem add_yy (m n : M3 α) : (m + n).yy = m.yy + n.yy := rfl

@[simp] theorem add_zz (m n : M3 α) : (m + n).zz = m.zz + n.zz := rfl

@[simp] theorem smul_xx (a : α) (m : M3 α) : (a • m).xx = a * m.xx := rfl

@[simp] theorem smul_yy (a : α) (m : M3 α) : (a • m).yy = a * m.yy := rfl

@[simp] theorem smul_zz (a : α) (m : M3 α) : (a • m).zz = a * m.zz := rfl

instance : AddCommMonoid (M3 α) where
  add_assoc a b c := by ext <;> exact add_assoc _ _ _
  zero_add a := by ext <;> exact zero_add _
  add_zero a := by ext <;> exact add_zero _
  add_comm a b := by ext <;> exact add_comm _ _
  nsmul := nsmulRec

/-- Matrix-vector product, used to apply the pressure-coupling velocity
scaling matrix. -/
def mulVec (m : M3 α) (v : V3 α) : V3 α :=
  ⟨m.xx * v.x + m.xy * v.y + m.xz * v.z,
   m.yx * v.x + m.yy * v.y + m.yz * v.z,
   m.zx * v.x + m.zy * v.y + m.zz * v.z⟩

/-- Outer product of two 3-vectors. -/
def outer (v w : V3 α) : M3 α :=
  ⟨v.x * w.x, v.x * w.y, v.x * w.z,
   v.y * w.x, v.y * w.y, v.y * w.z,
   v.z * w.x, v.z * w.y, v.z * w.z⟩

/-- Symmetry of a 3 by 3 tensor. -/
def IsSymm (m : M3 α) : Prop := m.xy = m.yx ∧ m.xz = m.zx ∧ m.yz = m.zy

end M3

/-! ### PBC transform

Modelled from the spec: the implementation of the PBC transform (`setPbc` /
`PbcAiuc` and the minimum-image kernel helper) is not part of the snapshot;
only its declaration appears in `update_constrain_cuda.h`.  The spec describes
a compact descriptor holding the box vectors and a precomputed orthogonality
flag; minimum imaging must "handle triclinic boxes correctly via the standard
shift-search over the reduced set of neighboring periodic images" and must
"degrade to a cheap direct modulo-like reduction for orthogonal boxes". -/

/-- Compact PBC descriptor: box vectors in the GROMACS triclinic shape
a = (aX, 0, 0), b = (bX, bY, 0), c = (cX, cY, cZ), together with the
precomputed orthogonality flag. -/
structure PbcAiuc (α : Type) where
  orthogonal : Bool
  aX : α
  bX : α
  bY : α
  cX : α
  cY : α
  cZ : α
deriving DecidableEq, Repr

namespace PbcAiuc

variable {α : Type} [LinearOrderedField α] [FloorRing α]

/-- First box vector. -/
def vecA (p : PbcAiuc α) : V3 α := ⟨p.aX, 0, 0⟩

/-- Second box vector. -/
def vecB (p : PbcAiuc α) : V3 α := ⟨p.bX, p.bY, 0⟩

/-- Third box vector. -/
def vecC (p : PbcAiuc α) : V3 α := ⟨p.cX, p.cY, p.cZ⟩

/-- Build the compact descriptor from a general (9-component) box
description, precomputing the orthogonality flag.  The spec's box convention
keeps aY, aZ and bZ at zero, so only six components are retained. -/
def setPbc [DecidableEq α] (aX bX bY cX cY cZ : α) : PbcAiuc α :=
  { orthogonal := decide (bX = 0 ∧ cX = 0 ∧ cY = 0),
    aX := aX, bX := bX, bY := bY, cX := cX, cY := cY, cZ := cZ }

/-- Cheap direct modulo-like reduction used for orthogonal boxes: each
component is brought to its nearest image independently. -/
def orthoReduce (p : PbcAiuc α) (r : V3 α) : V3 α :=
  ⟨r.x - p.aX * ((round (r.x / p.aX) : ℤ) : α),
   r.y - p.bY * ((round (r.y / p.bY) : ℤ) : α),
   r.z - p.cZ * ((round (r.z / p.cZ) : ℤ) : α)⟩

/-- Sequential triclinic reduction, z component first (only the third box
vector has a z component). -/
def shiftZ (p : PbcAiuc α) (r : V3 α) : V3 α :=
  r - ((round (r.z / p.cZ) : ℤ) : α) • p.vecC

/-- Sequential triclinic reduction, y component second. -/
def shiftY (p : PbcAiuc α) (r : V3 α) : V3 α :=
  r - ((round (r.y / p.bY) : ℤ) : α) • p.vecB

/-- Sequential triclinic reduction, x component last. -/
def shiftX (p : PbcAiuc α) (r : V3 α) : V3 α :=
  r - ((round (r.x / p.aX) : ℤ) : α) • p.vecA

/-- The reduced set of neighboring periodic images searched for a triclinic
box: all combinations of one lattice step in each direction. -/
def neighborShifts : List (ℤ × ℤ × ℤ) :=
  ([-1, 0, 1] : List ℤ).flatMap fun i =>
    ([-1, 0, 1] : List ℤ).flatMap fun j =>
      ([-1, 0, 1] : List ℤ).map fun k => (i, j, k)

/-- Lattice translation associated with a shift triple. -/
def shiftVec (p : PbcAiuc α) (s : ℤ × ℤ × ℤ) : V3 α :=
  ((s.1 : ℤ) : α) • p.vecA + ((s.2.1 : ℤ) : α) • p.vecB + ((s.2.2 : ℤ) : α) • p.vecC

/-- Keep the candidate with the smallest squared norm, preferring the
incumbent on ties. -/
def pickMin (init : V3 α) (cands : List (V3 α)) : V3 α :=
  cands.foldl (fun best c => if V3.normSq c < V3.normSq best then c else best) init

/-- Standard triclinic minimum imaging: sequential reduction along the three
box vectors followed by the shift-search over the neighboring images. -/
def triclinicReduce (p : PbcAiuc α) (r : V3 α) : V3 α :=
  let r3 := p.shiftX (p.shiftY (p.shiftZ r))
  pickMin r3 (neighborShifts.map fun s => r3 + p.shiftVec s)

/-- Map a displacement vector to its minimum-image equivalent, taking the
cheap path when the box was flagged orthogonal. -/
def minImage (p : PbcAiuc α) (r : V3 α) : V3 α :=
  if p.orthogonal then p.orthoReduce r else p.triclinicReduce r

end PbcAiuc

/-- Optional PBC: `none` treats displacements directly (no periodicity). -/
def pbcDx {α : Type} [LinearOrderedField α] [FloorRing α]
    (p : Option (PbcAiuc α)) (r : V3 α) : V3 α :=
  match p with
  | none => r
  | some d => d.minImage r

/-- Euclidean norm over the reals. -/
noncomputable def V3.rnorm (v : V3 ℝ) : ℝ := Real.sqrt (V3.normSq v)

/-- Unit vector in the direction of `v` (junk when `v = 0`). -/
noncomputable def V3.normalize (v : V3 ℝ) : V3 ℝ := (V3.rnorm v)⁻¹ • v

/-! ### Pairwise distance constraints and the iterative solver

Modelled from the spec: the LINCS-style solver implementation is absent from
the snapshot (the constructor doc only records that it takes the number of
iterations and the expansion order from the input record).  Following the
spec's algorithm: constraint error from PBC-corrected reference direction
vectors, truncated Neumann-series solve of the coupled linear correction, and
a fixed number of refinement iterations re-deriving the error from corrected
positions, proceeding with the best available linear approximation when an
intermediate squared-distance term goes negative. -/

/-- A pairwise distance constraint: the two atom indices, the target
distance, and the combined inverse mass term 1 / (1/mA + 1/mB). -/
structure DistConstraint where
  a : ℕ
  b : ℕ
  target : ℝ
  rm : ℝ

/-- Inputs fixed for one constraint solve: PBC descriptor, inverse mass
table, constraint list, expansion order, iteration count and the
pre-integration reference positions. -/
structure LincsSetup where
  pbcF : V3 ℝ → V3 ℝ
  invm : ℕ → ℝ
  cs : List DistConstraint
  order : ℕ
  iters : ℕ
  xref : ℕ → V3 ℝ

namespace Lincs

/-- Constraint at list position `i` (junk constraint past the end). -/
def cAt (cs : List DistConstraint) (i : ℕ) : DistConstraint :=
  cs.getD i ⟨0, 0, 0, 0⟩

/-- PBC-corrected displacement function of a setup. -/
def pf (L : LincsSetup) : V3 ℝ → V3 ℝ := L.pbcF

/-- Unit direction vector of constraint `i`, taken from the reference
configuration with minimum imaging. -/
noncomputable def dirU (L : LincsSetup) (i : ℕ) : V3 ℝ :=
  V3.normalize (pf L (L.xref (cAt L.cs i).a - L.xref (cAt L.cs i).b))

/-- Diagonal mass scaling factor of constraint `i` (square root of the
combined inverse mass term). -/
noncomputable def sFac (L : LincsSetup) (i : ℕ) : ℝ := Real.sqrt (cAt L.cs i).rm

/-- Mass-weighted connection coefficient of two constraints: nonzero exactly
when they share an atom, with sign depending on the shared atom's role. -/
noncomputable def connCoeff (invm : ℕ → ℝ) (c d : DistConstraint) : ℝ :=
  (if c.a = d.a then invm c.a else 0) + (if c.b = d.b then invm c.b else 0)
    - (if c.a = d.b then invm c.a else 0) - (if c.b = d.a then invm c.b else 0)

/-- One application of the off-diagonal coupling matrix to a
constraint-indexed vector. -/
noncomputable def Amul (L : LincsSetup) (v : ℕ → ℝ) (i : ℕ) : ℝ :=
  ∑ j ∈ Finset.range L.cs.length,
    if j = i then 0
    else -(sFac L i * sFac L j * connCoeff L.invm (cAt L.cs i) (cAt L.cs j)
           * V3.dot (dirU L i) (dirU L j)) * v j

/-- Truncated Neumann series: `neumann A n rhs` sums the first `n + 1`
powers of the coupling matrix applied to the right-hand side. -/
noncomputable def neumann (A : (ℕ → ℝ) → ℕ → ℝ) : ℕ → (ℕ → ℝ) → ℕ → ℝ
  | 0, rhs => rhs
  | n + 1, rhs => fun i => rhs i + A (neumann A n rhs) i

/-- Position correction of atom `n` induced by a solved coefficient vector:
each constraint moves its two atoms along its reference direction, weighted
by the atom's inverse mass. -/
noncomputable def corrDelta (L : LincsSetup) (sol : ℕ → ℝ) (n : ℕ) : V3 ℝ :=
  ∑ i ∈ Finset.range L.cs.length,
    ((if (cAt L.cs i).a = n then -(L.invm n * sFac L i * sol i) else 0)
      + (if (cAt L.cs i).b = n then L.invm n * sFac L i * sol i else 0)) • dirU L i

/-- Right-hand side of the initial linear projection: deviation of the
current pair displacement, projected on the reference direction, from the
target distance. -/
noncomputable def mainRhs (L : LincsSetup) (p : ℕ → V3 ℝ) (i : ℕ) : ℝ :=
  sFac L i * (V3.dot (dirU L i) (pf L (p (cAt L.cs i).a - p (cAt L.cs i).b))
                - (cAt L.cs i).target)

/-- Right-hand side of a refinement iteration, re-derived from corrected
positions; a negative intermediate squared-distance term is clamped so the
solver proceeds with the best available linear approximation. -/
noncomputable def iterRhs (L : LincsSetup) (p : ℕ → V3 ℝ) (i : ℕ) : ℝ :=
  sFac L i * ((cAt L.cs i).target
    - Real.sqrt (max 0 (2 * (cAt L.cs i).target ^ 2
        - V3.normSq (pf L (p (cAt L.cs i).a - p (cAt L.cs i).b)))))

/-- Initial projection pass. -/
noncomputable def mainPass (L : LincsSetup) (p : ℕ → V3 ℝ) : ℕ → V3 ℝ :=
  fun n => p n + corrDelta L (neumann (Amul L) L.order (mainRhs L p)) n

/-- One refinement iteration. -/
noncomputable def refinePass (L : LincsSetup) (p : ℕ → V3 ℝ) : ℕ → V3 ℝ :=
  fun n => p n + corrDelta L (neumann (Amul L) L.order (iterRhs L p)) n

/-- The configured number of refinement iterations. -/
noncomputable def refineLoop (L : LincsSetup) : ℕ → (ℕ → V3 ℝ) → ℕ → V3 ℝ
  | 0, p => p
  | n + 1, p => refineLoop L n (refinePass L p)

/-- Full pairwise-constraint solve: projection pass followed by the
configured refinement iterations. -/
noncomputable def solve (L : LincsSetup) (x : ℕ → V3 ℝ) : ℕ → V3 ℝ :=
  refineLoop L L.iters (mainPass L x)

end Lincs

/-! ### Rigid triplets and the analytic solver

Modelled from the spec: the SETTLE-style solver implementation is absent from
the snapshot (the constructor doc only records that it takes the O and H
masses and the target O-H and H-H distances from the topology).  Following
the spec's contract: a closed-form geometric construction computes the
triplet's center of mass and orientation and maps the rigid reference
geometry back onto the unconstrained configuration, the mass-weighted
construction conserving momentum implicitly; no iteration and no tolerance
parameter. -/

/-- A rigid triplet: three atom indices and the reference geometry given by
the target O-H and H-H distances. -/
structure Triplet where
  o : ℕ
  h1 : ℕ
  h2 : ℕ
  dOH : ℝ
  dHH : ℝ

namespace Settle

/-- Abscissa of the second hydrogen of the canonical reference triangle. -/
noncomputable def canonT (t : Triplet) : ℝ := (2 * t.dOH ^ 2 - t.dHH ^ 2) / (2 * t.dOH)

/-- Height of the second hydrogen of the canonical reference triangle. -/
noncomputable def canonH (t : Triplet) : ℝ := Real.sqrt (t.dOH ^ 2 - canonT t ^ 2)

/-- Canonical position of the O atom. -/
noncomputable def canonO (_ : Triplet) : V3 ℝ := 0

/-- Canonical position of the first H atom. -/
noncomputable def canonH1 (t : Triplet) : V3 ℝ := ⟨t.dOH, 0, 0⟩

/-- Canonical position of the second H atom. -/
noncomputable def canonH2 (t : Triplet) : V3 ℝ := ⟨canonT t, canonH t, 0⟩

/-- First orthonormal frame vector of the unconstrained triangle. -/
noncomputable def gsE1 (p1 p2 : V3 ℝ) : V3 ℝ := V3.normalize (p2 - p1)

/-- Component of the third vertex orthogonal to the first edge (computed
without square roots). -/
noncomputable def gsWp (p1 p2 p3 : V3 ℝ) : V3 ℝ :=
  (p3 - p1) - (V3.dot (p2 - p1) (p3 - p1) / V3.normSq (p2 - p1)) • (p2 - p1)

/-- Second orthonormal frame vector. -/
noncomputable def gsE2 (p1 p2 p3 : V3 ℝ) : V3 ℝ := V3.normalize (gsWp p1 p2 p3)

/-- Express canonical coordinates in an orthonormal frame. -/
noncomputable def frameApply (e1 e2 e3 w : V3 ℝ) : V3 ℝ := w.x • e1 + w.y • e2 + w.z • e3

/-- Mass-weighted center of mass of a triplet's three atoms. -/
noncomputable def tripletCom (mass : ℕ → ℝ) (t : Triplet) (p : ℕ → V3 ℝ) : V3 ℝ :=
  (mass t.o + mass t.h1 + mass t.h2)⁻¹
    • (mass t.o • p t.o + mass t.h1 • p t.h1 + mass t.h2 • p t.h2)

/-- Mass-weighted center of mass of the canonical reference triangle. -/
noncomputable def canonCom (mass : ℕ → ℝ) (t : Triplet) : V3 ℝ :=
  (mass t.o + mass t.h1 + mass t.h2)⁻¹
    • (mass t.o • canonO t + mass t.h1 • canonH1 t + mass t.h2 • canonH2 t)

/-- Closed-form rigid-triplet solve: place the canonical reference geometry,
relative to its mass-weighted center of mass, at the unconstrained
configuration's center of mass, oriented along the unconstrained triangle's
orthonormal frame.  Atoms outside the triplet are untouched. -/
noncomputable def settleTriplet (mass : ℕ → ℝ) (t : Triplet) (p : ℕ → V3 ℝ) : ℕ → V3 ℝ :=
  let e1 := gsE1 (p t.o) (p t.h1)
  let e2 := gsE2 (p t.o) (p t.h1) (p t.h2)
  let e3 := V3.cross e1 e2
  let c := tripletCom mass t p
  let cb := canonCom mass t
  fun n =>
    if n = t.o then c + frameApply e1 e2 e3 (canonO t - cb)
    else if n = t.h1 then c + frameApply e1 e2 e3 (canonH1 t - cb)
    else if n = t.h2 then c + frameApply e1 e2 e3 (canonH2 t - cb)
    else p n

/-- Solve every rigid triplet; triplets never share atoms, so they are
independent. -/
noncomputable def settleAll (mass : ℕ → ℝ) (ts : List Triplet) (p : ℕ → V3 ℝ) : ℕ → V3 ℝ :=
  ts.foldl (fun q t => settleTriplet mass t q) p

end Settle

/-! ### The per-step pipeline

Modelled from the spec: `UpdateConstrainCuda::integrate` (header lines
83-106) enqueues, for one step, the leapfrog integration, the two constraint
solvers and the virial accumulation; `UpdateConstrainCuda::set` (lines
108-122) binds buffers, topology, atom data and the number of temperature
scaling groups (zero meaning no temperature scaling). -/

/-- Everything one `integrate` call sees: bound state from `set` / `setPbc`
plus the per-call arguments of the header's `integrate`. -/
structure StepInputs where
  nAtoms : ℕ
  x : ℕ → V3 ℝ
  v : ℕ → V3 ℝ
  f : ℕ → V3 ℝ
  invMass : ℕ → ℝ
  mass : ℕ → ℝ
  cs : List DistConstraint
  triplets : List Triplet
  order : ℕ
  iters : ℕ
  tol : ℝ
  pbc : Option (PbcAiuc ℝ)
  dt : ℝ
  updateVelocities : Bool
  computeVirial : Bool
  virialIn : M3 ℝ
  doTempCouple : Bool
  numTempScaleValues : ℕ
  tcstat : List ℝ
  tcGroup : ℕ → ℕ
  doPressureCouple : Bool
  dtPressureCouple : ℝ
  prMatrix : M3 ℝ

namespace Pipeline

/-- Coupling-scaling adapter: flatten the per-temperature-group scale
factors into a per-particle value; zero scaling groups means no temperature
scaling, i.e. a unit factor for every particle. -/
noncomputable def tempScale (cfg : StepInputs) (i : ℕ) : ℝ :=
  if cfg.doTempCouple ∧ cfg.numTempScaleValues ≠ 0 then cfg.tcstat.getD (cfg.tcGroup i) 1
  else 1

/-- Leapfrog velocity half of the integrator: scale by the
temperature-coupling factor, kick by the force, then apply the
pressure-coupling matrix scaling when active. -/
noncomputable def integratedV (cfg : StepInputs) (i : ℕ) : V3 ℝ :=
  let v1 := tempScale cfg i • cfg.v i + (cfg.dt * cfg.invMass i) • cfg.f i
  if cfg.doPressureCouple then cfg.prMatrix.mulVec v1 else v1

/-- Leapfrog position half of the integrator: drift by the updated
velocity. -/
noncomputable def integratedX (cfg : StepInputs) (i : ℕ) : V3 ℝ := cfg.x i + cfg.dt • integratedV cfg i

/-- The pairwise solver inputs derived from the bound state; the reference
positions are the pre-integration coordinates. -/
noncomputable def lincsSetup (cfg : StepInputs) : LincsSetup :=
  ⟨pbcDx cfg.pbc, cfg.invMass, cfg.cs, cfg.order, cfg.iters, cfg.x⟩

/-- Constraint phase applied to post-integration positions: pairwise solver
then rigid-triplet solver (the two never share atoms). -/
noncomputable def constrainPhase (cfg : StepInputs) (p : ℕ → V3 ℝ) : ℕ → V3 ℝ :=
  Settle.settleAll cfg.mass cfg.triplets (Lincs.solve (lincsSetup cfg) p)

/-- Final positions of one step. -/
noncomputable def stepX (cfg : StepInputs) : ℕ → V3 ℝ :=
  constrainPhase cfg (integratedX cfg)

/-- Final velocities of one step: when requested, the constraint correction
displacement divided by the timestep is added. -/
noncomputable def stepV (cfg : StepInputs) (i : ℕ) : V3 ℝ :=
  if cfg.updateVelocities then
    integratedV cfg i + (1 / cfg.dt) • (stepX cfg i - integratedX cfg i)
  else integratedV cfg i

/-- Constraint virial of the step: mass-weighted outer products of each
particle's constraint-correction displacement with its pre-correction
position, summed and scaled by -1/2 dt^-2. -/
noncomputable def constraintVirial (cfg : StepInputs) : M3 ℝ :=
  ((-1 / 2) / cfg.dt ^ 2)
    • ∑ i ∈ Finset.range cfg.nAtoms,
        cfg.mass i • M3.outer (stepX cfg i - integratedX cfg i) (integratedX cfg i)

/-- Virial output of the step: zeroed and accumulated when requested,
otherwise the incoming tensor untouched. -/
noncomputable def stepVirial (cfg : StepInputs) : M3 ℝ :=
  if cfg.computeVirial then (0 : M3 ℝ) + constraintVirial cfg else cfg.virialIn

/-- Result of one `integrate` call. -/
structure StepResult where
  x : ℕ → V3 ℝ
  v : ℕ → V3 ℝ
  virial : M3 ℝ

/-- One full step of the pipeline: integrate, constrain, accumulate the
virial. -/
noncomputable def fullStep (cfg : StepInputs) : StepResult :=
  ⟨stepX cfg, stepV cfg, stepVirial cfg⟩

end Pipeline

/-! ### Stream enqueueing model

Modelled from the spec: the asynchronous enqueue logic of `integrate` is
absent from the snapshot.  The spec requires a step to be atomic from the
caller's perspective: internal scratch allocation happens before any stage
is enqueued, an allocation failure aborts the whole step and is propagated,
and no partial step is left enqueued. -/

/-- The pipeline stages of one step, in enqueue order. -/
inductive StageOp
  | integrateStage
  | lincsStage
  | settleStage
  | virialStage
deriving DecidableEq, Repr

/-- Stages of a complete step. -/
def pipelineOps : List StageOp :=
  [StageOp.integrateStage, StageOp.lincsStage, StageOp.settleStage, StageOp.virialStage]

/-- Failure modes surfaced to the caller. -/
inductive StepError
  | allocFailure
deriving DecidableEq, Repr

/-- The caller-supplied asynchronous execution stream, as the ordered list
of operations enqueued on it. -/
structure DeviceStream where
  ops : List StageOp
deriving DecidableEq, Repr

/-- Enqueue one step: allocate internal scratch buffers first (`allocOk`
models the outcome), then enqueue every stage; on allocation failure abort
with the error propagated and the stream untouched. -/
def enqueueStep (allocOk : Bool) (s : DeviceStream) : DeviceStream × Option StepError :=
  if allocOk then ({ ops := s.ops ++ pipelineOps }, none)
  else (s, some StepError.allocFailure)

/-! ### Concrete baseline inputs used by witnesses -/

/-- A small concrete step configuration: two atoms at rest, unit masses, no
constraints, no couplings, unit timestep. -/
noncomputable def cfg0 : StepInputs :=
  { nAtoms := 2
    x := fun _ => 0
    v := fun _ => 0
    f := fun _ => 0
    invMass := fun _ => 1
    mass := fun _ => 1
    cs := []
    triplets := []
    order := 4
    iters := 1
    tol := 1 / 10000
    pbc := none
    dt := 1
    updateVelocities := false
    computeVirial := false
    virialIn := 0
    doTempCouple := true
    numTempScaleValues := 0
    tcstat := []
    tcGroup := fun _ => 0
    doPressureCouple := false
    dtPressureCouple := 1
    prMatrix := 0 }

/-! ### Helper lemmas for minimum imaging -/

/-- Nearest-image reduction along one axis lands within half a box length. -/
theorem reduce_abs_le {α : Type} [LinearOrderedField α] [FloorRing α]
    (L r : α) (hL : 0 < L) : |r - L * ((round (r / L) : ℤ) : α)| ≤ L / 2 := by
  have h := abs_sub_round (r / L)
  have hrw : r - L * ((round (r / L) : ℤ) : α) = L * (r / L - ((round (r / L) : ℤ) : α)) := by
    field_simp
  rw [hrw, abs_mul, abs_of_pos hL]
  calc L * |r / L - ((round (r / L) : ℤ) : α)| ≤ L * (1 / 2) :=
        mul_le_mul_of_nonneg_left h hL.le
    _ = L / 2 := by ring

/-- A component within half a box length cannot get closer to zero by adding
any whole number of box lengths. -/
theorem sq_le_shiftTerm {α : Type} [LinearOrderedField α]
    (r L : α) (s : ℤ) (hL : 0 < L) (hr : |r| ≤ L / 2) :
    r * r ≤ (r + (s : α) * L) * (r + (s : α) * L) := by
  rcases eq_or_ne s 0 with h | h
  · simp [h]
  · have h1 : (1 : α) ≤ |(s : α)| := by
      have := Int.one_le_abs h
      exact_mod_cast Int.cast_le.2 this
    have h2 : L ≤ |(s : α) * L| := by
      rw [abs_mul, abs_of_pos hL]
      nlinarith
    have h3 : |(s : α) * L| ≤ |r + (s : α) * L| + |r| := by
      have htri := abs_add (r + (s : α) * L) (-r)
      have hrw2 : r + (s : α) * L + -r = (s : α) * L := by ring
      rw [abs_neg, hrw2] at htri
      exact htri
    have h4 : |r| ≤ |r + (s : α) * L| := by linarith
    calc r * r = |r| * |r| := (abs_mul_abs_self r).symm
      _ ≤ |r + (s : α) * L| * |r + (s : α) * L| :=
          mul_le_mul h4 h4 (abs_nonneg r) (abs_nonneg _)
      _ = (r + (s : α) * L) * (r + (s : α) * L) := abs_mul_abs_self _

/-- The shift-search fold keeps its incumbent when no candidate is strictly
closer. -/
theorem pickMin_keep {α : Type} [LinearOrderedField α]
    (init : V3 α) (l : List (V3 α))
    (h : ∀ c ∈ l, ¬ V3.normSq c < V3.normSq init) :
    PbcAiuc.pickMin init l = init := by
  induction l with
  | nil => rfl
  | cons a t ih =>
      simp only [PbcAiuc.pickMin, List.foldl_cons] at ih ⊢
      rw [if_neg (h a (List.mem_cons_self a t))]
      exact ih fun c hc => h c (List.mem_cons_of_mem a hc)

/-- Rounding is unchanged by adding a whole number of box lengths, as long
as the reduced component stays strictly within half a box length. -/
theorem round_shift_eq (L y : ℝ) (k : ℤ) (hL : 0 < L) (hy : |y| < L / 2) :
    round ((y + L * (k : ℝ)) / L) = k := by
  have hdiv : (y + L * (k : ℝ)) / L = y / L + (k : ℝ) := by
    field_simp
    ring
  rw [hdiv]
  have h2 : |y / L| < 1 / 2 := by
    rw [abs_div, abs_of_pos hL, div_lt_iff₀ hL]
    linarith
  have h0 : round (y / L) = 0 := by
    rw [round_eq_zero_iff, Set.mem_Ico]
    obtain ⟨hl, hr⟩ := abs_lt.mp h2
    exact ⟨by linarith, by linarith⟩
  rw [round_add_int, h0, zero_add]

/-- For a box flagged orthogonal, minimum imaging commutes with translating
the displacement along a line: the reduction applies the same lattice shift
all along the line, as long as the reduced components stay strictly within
half a box length over the whole translation range. -/
theorem orthoShiftConsistent (P : PbcAiuc ℝ) (hflag : P.orthogonal = true)
    (ha : 0 < P.aX) (hb : 0 < P.bY) (hc : 0 < P.cZ)
    (w u : V3 ℝ) (B : ℝ)
    (hx : |(P.orthoReduce w).x| + B * |u.x| < P.aX / 2)
    (hy : |(P.orthoReduce w).y| + B * |u.y| < P.bY / 2)
    (hz : |(P.orthoReduce w).z| + B * |u.z| < P.cZ / 2) :
    ∀ t : ℝ, |t| ≤ B → pbcDx (some P) (w - t • u) = pbcDx (some P) w - t • u := by
  intro t ht
  have himg : ∀ Lb c uc : ℝ, 0 < Lb →
      |c - Lb * ((round (c / Lb) : ℤ) : ℝ)| + B * |uc| < Lb / 2 →
      c - t * uc - Lb * ((round ((c - t * uc) / Lb) : ℤ) : ℝ)
        = c - Lb * ((round (c / Lb) : ℤ) : ℝ) - t * uc := by
    intro Lb c uc hLb hbnd
    have h2 : |t * uc| ≤ B * |uc| := by
      rw [abs_mul]
      exact mul_le_mul_of_nonneg_right ht (abs_nonneg _)
    have habs : |c - Lb * ((round (c / Lb) : ℤ) : ℝ) - t * uc| < Lb / 2 := by
      have h1 : |c - Lb * ((round (c / Lb) : ℤ) : ℝ) - t * uc|
          ≤ |c - Lb * ((round (c / Lb) : ℤ) : ℝ)| + |t * uc| := abs_sub _ _
      linarith
    have hq : round ((c - t * uc) / Lb) = round (c / Lb) := by
      rw [show c - t * uc
          = (c - Lb * ((round (c / Lb) : ℤ) : ℝ) - t * uc)
            + Lb * ((round (c / Lb) : ℤ) : ℝ) from by ring]
      exact round_shift_eq Lb _ _ hLb habs
    rw [hq]
    ring
  obtain ⟨flag, bA, bBx, bBy, bCx, bCy, bCz⟩ := P
  have hflag2 : flag = true := hflag
  subst hflag2
  show PbcAiuc.orthoReduce (⟨true, bA, bBx, bBy, bCx, bCy, bCz⟩ : PbcAiuc ℝ) (w - t • u)
      = PbcAiuc.orthoReduce (⟨true, bA, bBx, bBy, bCx, bCy, bCz⟩ : PbcAiuc ℝ) w - t • u
  ext
  · show w.x - t * u.x - bA * ((round ((w.x - t * u.x) / bA) : ℤ) : ℝ)
        = w.x - bA * ((round (w.x / bA) : ℤ) : ℝ) - t * u.x
    exact himg bA w.x u.x ha hx
  · show w.y - t * u.y - bBy * ((round ((w.y - t * u.y) / bBy) : ℤ) : ℝ)
        = w.y - bBy * ((round (w.y / bBy) : ℤ) : ℝ) - t * u.y
    exact himg bBy w.y u.y hb hy
  · show w.z - t * u.z - bCz * ((round ((w.z - t * u.z) / bCz) : ℤ) : ℝ)
        = w.z - bCz * ((round (w.z / bCz) : ℤ) : ℝ) - t * u.z
    exact himg bCz w.z u.z hc hz

/-! ### Helper lemmas for the real-valued geometry -/

theorem normSq_nonneg (v : V3 ℝ) : 0 ≤ V3.normSq v := by
  simp only [V3.normSq, V3.dot]
  have hx := mul_self_nonneg v.x
  have hy := mul_self_nonneg v.y
  have hz := mul_self_nonneg v.z
  linarith

theorem normSq_pos_of_ne (v : V3 ℝ) (h : V3.normSq v ≠ 0) : 0 < V3.normSq v :=
  lt_of_le_of_ne (normSq_nonneg v) (Ne.symm h)

theorem rnorm_mul_self (v : V3 ℝ) : V3.rnorm v * V3.rnorm v = V3.normSq v :=
  Real.mul_self_sqrt (normSq_nonneg v)

theorem rnorm_nonneg (v : V3 ℝ) : 0 ≤ V3.rnorm v := Real.sqrt_nonneg _

theorem rnorm_pos (v : V3 ℝ) (h : V3.normSq v ≠ 0) : 0 < V3.rnorm v :=
  Real.sqrt_pos.2 (normSq_pos_of_ne v h)

theorem rnorm_eq_of_normSq (v : V3 ℝ) (d : ℝ) (hd : 0 ≤ d) (h : V3.normSq v = d ^ 2) :
    V3.rnorm v = d := by
  rw [V3.rnorm, h, Real.sqrt_sq hd]

theorem rnorm_zero : V3.rnorm (0 : V3 ℝ) = 0 := by
  simp [V3.rnorm, V3.normSq]

theorem dot_normalize_self (v : V3 ℝ) (h : V3.normSq v ≠ 0) :
    V3.dot (V3.normalize v) v = V3.rnorm v := by
  have hr := (rnorm_pos v h).ne'
  rw [V3.normalize, V3.dot_smul_left, show V3.dot v v = V3.normSq v from rfl,
    ← rnorm_mul_self v]
  exact inv_mul_cancel_left₀ hr _

theorem normalize_dot_self (v : V3 ℝ) (h : V3.normSq v ≠ 0) :
    V3.dot (V3.normalize v) (V3.normalize v) = 1 := by
  have hr := (rnorm_pos v h).ne'
  rw [V3.normalize, V3.dot_smul_left, V3.dot_smul_right,
    show V3.dot v v = V3.normSq v from rfl, ← rnorm_mul_self v]
  field_simp

theorem smul_swap (a b : ℝ) (w : V3 ℝ) : a • b • w = b • a • w := by
  rw [smul_smul, mul_comm, ← smul_smul]

theorem frameApply_add (e1 e2 e3 u w : V3 ℝ) :
    Settle.frameApply e1 e2 e3 (u + w)
      = Settle.frameApply e1 e2 e3 u + Settle.frameApply e1 e2 e3 w := by
  simp only [Settle.frameApply, V3.add_x, V3.add_y, V3.add_z, add_smul]
  abel

theorem frameApply_sub (e1 e2 e3 u w : V3 ℝ) :
    Settle.frameApply e1 e2 e3 (u - w)
      = Settle.frameApply e1 e2 e3 u - Settle.frameApply e1 e2 e3 w := by
  simp only [Settle.frameApply, V3.sub_x, V3.sub_y, V3.sub_z, sub_smul]
  abel

theorem frameApply_smul (e1 e2 e3 : V3 ℝ) (a : ℝ) (u : V3 ℝ) :
    Settle.frameApply e1 e2 e3 (a • u) = a • Settle.frameApply e1 e2 e3 u := by
  simp only [Settle.frameApply, V3.smul_x, V3.smul_y, V3.smul_z, mul_smul, smul_add]

/-- An orthonormal pair completed by its cross product preserves inner
products of coordinate vectors. -/
theorem frame_dot (e1 e2 u w : V3 ℝ) (h11 : V3.dot e1 e1 = 1) (h22 : V3.dot e2 e2 = 1)
    (h12 : V3.dot e1 e2 = 0) :
    V3.dot (Settle.frameApply e1 e2 (V3.cross e1 e2) u)
        (Settle.frameApply e1 e2 (V3.cross e1 e2) w)
      = V3.dot u w := by
  have h21 : V3.dot e2 e1 = 0 := by rw [V3.dot_comm]; exact h12
  have h13 : V3.dot e1 (V3.cross e1 e2) = 0 := V3.dot_cross_left e1 e2
  have h23 : V3.dot e2 (V3.cross e1 e2) = 0 := V3.dot_cross_right e1 e2
  have h31 : V3.dot (V3.cross e1 e2) e1 = 0 := by rw [V3.dot_comm]; exact h13
  have h32 : V3.dot (V3.cross e1 e2) e2 = 0 := by rw [V3.dot_comm]; exact h23
  have h33 : V3.dot (V3.cross e1 e2) (V3.cross e1 e2) = 1 := by
    have hl := V3.normSq_cross e1 e2
    simp only [V3.normSq] at hl
    rw [hl, h11, h22, h12]; ring
  simp only [Settle.frameApply, V3.dot_add_left, V3.dot_add_right, V3.dot_smul_left,
    V3.dot_smul_right, h11, h22, h12, h21, h13, h23, h31, h32, h33]
  simp only [V3.dot]
  ring

/-- Mass-weighted sum of frame-placed canonical points equals the original
mass-weighted sum: the canonical offsets from the canonical center of mass
cancel. -/
theorem frame_mass_cancel (mass : ℕ → ℝ) (t : Triplet) (p : ℕ → V3 ℝ) (e1 e2 e3 : V3 ℝ)
    (hM : mass t.o + mass t.h1 + mass t.h2 ≠ 0) :
    mass t.o • (Settle.tripletCom mass t p
        + Settle.frameApply e1 e2 e3 (Settle.canonO t - Settle.canonCom mass t))
      + mass t.h1 • (Settle.tripletCom mass t p
        + Settle.frameApply e1 e2 e3 (Settle.canonH1 t - Settle.canonCom mass t))
      + mass t.h2 • (Settle.tripletCom mass t p
        + Settle.frameApply e1 e2 e3 (Settle.canonH2 t - Settle.canonCom mass t))
    = mass t.o • p t.o + mass t.h1 • p t.h1 + mass t.h2 • p t.h2 := by
  have hc : (mass t.o + mass t.h1 + mass t.h2) • Settle.tripletCom mass t p
      = mass t.o • p t.o + mass t.h1 • p t.h1 + mass t.h2 • p t.h2 := by
    rw [Settle.tripletCom, smul_inv_smul₀ hM]
  have hb : (mass t.o + mass t.h1 + mass t.h2) • Settle.canonCom mass t
      = mass t.o • Settle.canonO t + mass t.h1 • Settle.canonH1 t
        + mass t.h2 • Settle.canonH2 t := by
    rw [Settle.canonCom, smul_inv_smul₀ hM]
  have hFs : mass t.o • Settle.frameApply e1 e2 e3 (Settle.canonO t - Settle.canonCom mass t)
      + mass t.h1 • Settle.frameApply e1 e2 e3 (Settle.canonH1 t - Settle.canonCom mass t)
      + mass t.h2 • Settle.frameApply e1 e2 e3 (Settle.canonH2 t - Settle.canonCom mass t)
      = 0 := by
    rw [← frameApply_smul, ← frameApply_smul, ← frameApply_smul, ← frameApply_add,
      ← frameApply_add]
    have hz : mass t.o • (Settle.canonO t - Settle.canonCom mass t)
        + mass t.h1 • (Settle.canonH1 t - Settle.canonCom mass t)
        + mass t.h2 • (Settle.canonH2 t - Settle.canonCom mass t) = 0 := by
      have hexp : mass t.o • (Settle.canonO t - Settle.canonCom mass t)
          + mass t.h1 • (Settle.canonH1 t - Settle.canonCom mass t)
          + mass t.h2 • (Settle.canonH2 t - Settle.canonCom mass t)
          = (mass t.o • Settle.canonO t + mass t.h1 • Settle.canonH1 t
              + mass t.h2 • Settle.canonH2 t)
            - (mass t.o + mass t.h1 + mass t.h2) • Settle.canonCom mass t := by
        simp only [smul_sub, add_smul]
        abel
      rw [hexp, hb, sub_self]
    rw [hz]
    simp [Settle.frameApply]
  have hsplit : mass t.o • (Settle.tripletCom mass t p
        + Settle.frameApply e1 e2 e3 (Settle.canonO t - Settle.canonCom mass t))
      + mass t.h1 • (Settle.tripletCom mass t p
        + Settle.frameApply e1 e2 e3 (Settle.canonH1 t - Settle.canonCom mass t))
      + mass t.h2 • (Settle.tripletCom mass t p
        + Settle.frameApply e1 e2 e3 (Settle.canonH2 t - Settle.canonCom mass t))
      = (mass t.o + mass t.h1 + mass t.h2) • Settle.tripletCom mass t p
        + (mass t.o • Settle.frameApply e1 e2 e3 (Settle.canonO t - Settle.canonCom mass t)
          + mass t.h1 • Settle.frameApply e1 e2 e3 (Settle.canonH1 t - Settle.canonCom mass t)
          + mass t.h2 • Settle.frameApply e1 e2 e3 (Settle.canonH2 t - Settle.canonCom mass t)) := by
    simp only [smul_add, add_smul]
    abel
  rw [hsplit, hFs, add_zero, hc]

/-- One rigid-triplet solve at the triplet's own atoms, with the branch
tests discharged. -/
theorem settleTriplet_atoms (mass : ℕ → ℝ) (t : Triplet) (p : ℕ → V3 ℝ)
    (h01 : t.o ≠ t.h1) (h02 : t.o ≠ t.h2) (h12 : t.h1 ≠ t.h2) :
    Settle.settleTriplet mass t p t.o
        = Settle.tripletCom mass t p
          + Settle.frameApply (Settle.gsE1 (p t.o) (p t.h1))
              (Settle.gsE2 (p t.o) (p t.h1) (p t.h2))
              (V3.cross (Settle.gsE1 (p t.o) (p t.h1))
                (Settle.gsE2 (p t.o) (p t.h1) (p t.h2)))
              (Settle.canonO t - Settle.canonCom mass t)
      ∧ Settle.settleTriplet mass t p t.h1
        = Settle.tripletCom mass t p
          + Settle.frameApply (Settle.gsE1 (p t.o) (p t.h1))
              (Settle.gsE2 (p t.o) (p t.h1) (p t.h2))
              (V3.cross (Settle.gsE1 (p t.o) (p t.h1))
                (Settle.gsE2 (p t.o) (p t.h1) (p t.h2)))
              (Settle.canonH1 t - Settle.canonCom mass t)
      ∧ Settle.settleTriplet mass t p t.h2
        = Settle.tripletCom mass t p
          + Settle.frameApply (Settle.gsE1 (p t.o) (p t.h1))
              (Settle.gsE2 (p t.o) (p t.h1) (p t.h2))
              (V3.cross (Settle.gsE1 (p t.o) (p t.h1))
                (Settle.gsE2 (p t.o) (p t.h1) (p t.h2)))
              (Settle.canonH2 t - Settle.canonCom mass t) := by
  refine ⟨?_, ?_, ?_⟩
  · simp [Settle.settleTriplet]
  · simp [Settle.settleTriplet, Ne.symm h01]
  · simp [Settle.settleTriplet, Ne.symm h02, Ne.symm h12]

/-- The rigid-triplet solve preserves the triplet's mass-weighted position
sum exactly. -/
theorem settle_mass_sum (mass : ℕ → ℝ) (t : Triplet) (p : ℕ → V3 ℝ)
    (hM : mass t.o + mass t.h1 + mass t.h2 ≠ 0)
    (h01 : t.o ≠ t.h1) (h02 : t.o ≠ t.h2) (h12 : t.h1 ≠ t.h2) :
    mass t.o • Settle.settleTriplet mass t p t.o
      + mass t.h1 • Settle.settleTriplet mass t p t.h1
      + mass t.h2 • Settle.settleTriplet mass t p t.h2
    = mass t.o • p t.o + mass t.h1 • p t.h1 + mass t.h2 • p t.h2 := by
  obtain ⟨e0, eh1, eh2⟩ := settleTriplet_atoms mass t p h01 h02 h12
  rw [e0, eh1, eh2]
  exact frame_mass_cancel mass t p _ _ _ hM

/-- The sqrt-free Gram-Schmidt residual is orthogonal to the first edge. -/
theorem gsWp_orth (p1 p2 p3 : V3 ℝ) (h : V3.normSq (p2 - p1) ≠ 0) :
    V3.dot (p2 - p1) (Settle.gsWp p1 p2 p3) = 0 := by
  rw [Settle.gsWp, V3.dot_sub_right, V3.dot_smul_right,
    show V3.dot (p2 - p1) (p2 - p1) = V3.normSq (p2 - p1) from rfl]
  field_simp

/-- The two normalized frame vectors are orthogonal. -/
theorem gsE1_dot_gsE2 (p1 p2 p3 : V3 ℝ) (h : V3.normSq (p2 - p1) ≠ 0) :
    V3.dot (Settle.gsE1 p1 p2) (Settle.gsE2 p1 p2 p3) = 0 := by
  rw [Settle.gsE1, Settle.gsE2, V3.normalize, V3.normalize, V3.dot_smul_left,
    V3.dot_smul_right, gsWp_orth p1 p2 p3 h, mul_zero, mul_zero]

/-- First canonical edge has the first target length. -/
theorem canon_dist1 (t : Triplet) :
    V3.normSq (Settle.canonH1 t - Settle.canonO t) = t.dOH ^ 2 := by
  simp [V3.normSq, V3.dot, Settle.canonH1, Settle.canonO]
  ring

/-- Second canonical edge has the first target length. -/
theorem canon_dist2 (t : Triplet) (htri : Settle.canonT t ^ 2 ≤ t.dOH ^ 2) :
    V3.normSq (Settle.canonH2 t - Settle.canonO t) = t.dOH ^ 2 := by
  have hh : Settle.canonH t * Settle.canonH t = t.dOH ^ 2 - Settle.canonT t ^ 2 :=
    Real.mul_self_sqrt (by linarith)
  simp [V3.normSq, V3.dot, Settle.canonH2, Settle.canonO]
  linear_combination hh

/-- Third canonical edge has the second target length. -/
theorem canon_dist3 (t : Triplet) (hdOH : t.dOH ≠ 0)
    (htri : Settle.canonT t ^ 2 ≤ t.dOH ^ 2) :
    V3.normSq (Settle.canonH2 t - Settle.canonH1 t) = t.dHH ^ 2 := by
  have hh : Settle.canonH t * Settle.canonH t = t.dOH ^ 2 - Settle.canonT t ^ 2 :=
    Real.mul_self_sqrt (by linarith)
  have htc : Settle.canonT t * (2 * t.dOH) = 2 * t.dOH ^ 2 - t.dHH ^ 2 := by
    rw [Settle.canonT]
    field_simp
  simp [V3.normSq, V3.dot, Settle.canonH2, Settle.canonH1]
  linear_combination hh - htc

/-- Differences of the solved triplet positions are the frame images of the
canonical edge vectors. -/
theorem settle_diffs (mass : ℕ → ℝ) (t : Triplet) (p : ℕ → V3 ℝ)
    (h01 : t.o ≠ t.h1) (h02 : t.o ≠ t.h2) (h12 : t.h1 ≠ t.h2) :
    Settle.settleTriplet mass t p t.h1 - Settle.settleTriplet mass t p t.o
        = Settle.frameApply (Settle.gsE1 (p t.o) (p t.h1))
            (Settle.gsE2 (p t.o) (p t.h1) (p t.h2))
            (V3.cross (Settle.gsE1 (p t.o) (p t.h1))
              (Settle.gsE2 (p t.o) (p t.h1) (p t.h2)))
            (Settle.canonH1 t - Settle.canonO t)
      ∧ Settle.settleTriplet mass t p t.h2 - Settle.settleTriplet mass t p t.o
        = Settle.frameApply (Settle.gsE1 (p t.o) (p t.h1))
            (Settle.gsE2 (p t.o) (p t.h1) (p t.h2))
            (V3.cross (Settle.gsE1 (p t.o) (p t.h1))
              (Settle.gsE2 (p t.o) (p t.h1) (p t.h2)))
            (Settle.canonH2 t - Settle.canonO t)
      ∧ Settle.settleTriplet mass t p t.h2 - Settle.settleTriplet mass t p t.h1
        = Settle.frameApply (Settle.gsE1 (p t.o) (p t.h1))
            (Settle.gsE2 (p t.o) (p t.h1) (p t.h2))
            (V3.cross (Settle.gsE1 (p t.o) (p t.h1))
              (Settle.gsE2 (p t.o) (p t.h1) (p t.h2)))
            (Settle.canonH2 t - Settle.canonH1 t) := by
  obtain ⟨e0, eh1, eh2⟩ := settleTriplet_atoms mass t p h01 h02 h12
  refine ⟨?_, ?_, ?_⟩
  · rw [eh1, e0]; simp only [frameApply_sub]; abel
  · rw [eh2, e0]; simp only [frameApply_sub]; abel
  · rw [eh2, eh1]; simp only [frameApply_sub]; abel

/-- Law-of-cosines expansion of a squared difference. -/
theorem dot_from_normSq (v w : V3 ℝ) :
    V3.normSq (w - v) = V3.normSq w - 2 * V3.dot v w + V3.normSq v := by
  simp [V3.normSq, V3.dot]
  ring

/-- Squared norm of a vector minus its projection on another. -/
theorem perp_normSq (v w : V3 ℝ) (h : V3.normSq v ≠ 0) :
    V3.normSq (w - (V3.dot v w / V3.normSq v) • v)
      = V3.normSq w - V3.dot v w ^ 2 / V3.normSq v := by
  have hc : V3.dot w v = V3.dot v w := V3.dot_comm w v
  rw [V3.normSq, V3.dot_sub_left, V3.dot_sub_right, V3.dot_sub_right,
    V3.dot_smul_right, V3.dot_smul_left, V3.dot_smul_left, V3.dot_smul_right,
    hc, show V3.dot v v = V3.normSq v from rfl,
    show V3.dot w w = V3.normSq w from rfl]
  field_simp
  ring

/-- Squared norm of the Gram-Schmidt residual. -/
theorem gsWp_normSq (p1 p2 p3 : V3 ℝ) (h : V3.normSq (p2 - p1) ≠ 0) :
    V3.normSq (Settle.gsWp p1 p2 p3)
      = V3.normSq (p3 - p1)
        - V3.dot (p2 - p1) (p3 - p1) ^ 2 / V3.normSq (p2 - p1) := by
  rw [Settle.gsWp]
  exact perp_normSq (p2 - p1) (p3 - p1) h

/-- A truncated Neumann series applied to a vanishing right-hand side
vanishes on the constraint range. -/
theorem neumann_zero (L : LincsSetup) (rhs : ℕ → ℝ)
    (h : ∀ i < L.cs.length, rhs i = 0) :
    ∀ n, ∀ i < L.cs.length, Lincs.neumann (Lincs.Amul L) n rhs i = 0 := by
  intro n
  induction n with
  | zero => exact h
  | succ n ih =>
      intro i hi
      show rhs i + Lincs.Amul L (Lincs.neumann (Lincs.Amul L) n rhs) i = 0
      rw [h i hi, zero_add, Lincs.Amul]
      refine Finset.sum_eq_zero fun j hj => ?_
      rcases eq_or_ne j i with hji | hji
      · rw [if_pos hji]
      · rw [if_neg hji, ih j (Finset.mem_range.1 hj), mul_zero]

/-- Vanishing solved coefficients produce no position correction. -/
theorem corrDelta_of_zero (L : LincsSetup) (sol : ℕ → ℝ)
    (h : ∀ i < L.cs.length, sol i = 0) (n : ℕ) :
    Lincs.corrDelta L sol n = 0 := by
  rw [Lincs.corrDelta]
  refine Finset.sum_eq_zero fun i hi => ?_
  rw [h i (Finset.mem_range.1 hi)]
  simp

/-- The projection pass leaves positions unchanged when every constraint
error vanishes. -/
theorem mainPass_of_zero (L : LincsSetup) (x : ℕ → V3 ℝ)
    (h : ∀ i < L.cs.length, Lincs.mainRhs L x i = 0) :
    Lincs.mainPass L x = x := by
  funext n
  show x n + Lincs.corrDelta L (Lincs.neumann (Lincs.Amul L) L.order (Lincs.mainRhs L x)) n
      = x n
  rw [corrDelta_of_zero L _ (neumann_zero L _ h L.order) n, add_zero]

/-- A refinement iteration leaves positions unchanged when every constraint
error vanishes. -/
theorem refinePass_of_zero (L : LincsSetup) (x : ℕ → V3 ℝ)
    (h : ∀ i < L.cs.length, Lincs.iterRhs L x i = 0) :
    Lincs.refinePass L x = x := by
  funext n
  show x n + Lincs.corrDelta L (Lincs.neumann (Lincs.Amul L) L.order (Lincs.iterRhs L x)) n
      = x n
  rw [corrDelta_of_zero L _ (neumann_zero L _ h L.order) n, add_zero]

/-- Iterating a refinement pass from one of its fixed points stays put. -/
theorem refineLoop_fixed (L : LincsSetup) (x : ℕ → V3 ℝ)
    (h : Lincs.refinePass L x = x) : ∀ n, Lincs.refineLoop L n x = x := by
  intro n
  induction n with
  | zero => rfl
  | succ n ih =>
      show Lincs.refineLoop L n (Lincs.refinePass L x) = x
      rw [h]
      exact ih

/-- Constraint at a valid list position belongs to the list. -/
theorem cAt_mem (cs : List DistConstraint) (i : ℕ) (hi : i < cs.length) :
    Lincs.cAt cs i ∈ cs := by
  rw [Lincs.cAt, List.getD_eq_getElem cs _ hi]
  exact List.getElem_mem hi

/-- The pairwise solver leaves an exactly-satisfied configuration unchanged
when the reference positions are that same configuration. -/
theorem lincs_solve_fixed (L : LincsSetup)
    (hsat : ∀ c ∈ L.cs,
      V3.rnorm (L.pbcF (L.xref c.a - L.xref c.b)) = c.target ∧ 0 < c.target) :
    Lincs.solve L L.xref = L.xref := by
  have hmainz : ∀ i < L.cs.length, Lincs.mainRhs L L.xref i = 0 := by
    intro i hi
    obtain ⟨hlen, hpos⟩ := hsat _ (cAt_mem L.cs i hi)
    have hnz : V3.normSq (L.pbcF (L.xref (Lincs.cAt L.cs i).a
        - L.xref (Lincs.cAt L.cs i).b)) ≠ 0 := by
      intro h0
      rw [V3.rnorm, h0, Real.sqrt_zero] at hlen
      exact hpos.ne hlen
    rw [Lincs.mainRhs, Lincs.dirU]
    simp only [Lincs.pf]
    rw [dot_normalize_self _ hnz, hlen, sub_self, mul_zero]
  have hiterz : ∀ i < L.cs.length, Lincs.iterRhs L L.xref i = 0 := by
    intro i hi
    obtain ⟨hlen, hpos⟩ := hsat _ (cAt_mem L.cs i hi)
    have hns : V3.normSq (L.pbcF (L.xref (Lincs.cAt L.cs i).a
        - L.xref (Lincs.cAt L.cs i).b)) = (Lincs.cAt L.cs i).target ^ 2 := by
      rw [← rnorm_mul_self, hlen]
      ring
    rw [Lincs.iterRhs]
    simp only [Lincs.pf]
    rw [hns, show 2 * (Lincs.cAt L.cs i).target ^ 2 - (Lincs.cAt L.cs i).target ^ 2
        = (Lincs.cAt L.cs i).target ^ 2 from by ring,
      max_eq_right (sq_nonneg _), Real.sqrt_sq hpos.le, sub_self, mul_zero]
  show Lincs.refineLoop L L.iters (Lincs.mainPass L L.xref) = L.xref
  rw [mainPass_of_zero L L.xref hmainz]
  exact refineLoop_fixed L L.xref (refinePass_of_zero L L.xref hiterz) L.iters

/-- A rigid triplet already congruent to its reference geometry is left
exactly in place by the analytic solve. -/
theorem settleTriplet_fixed (mass : ℕ → ℝ) (t : Triplet) (p : ℕ → V3 ℝ)
    (hM : mass t.o + mass t.h1 + mass t.h2 ≠ 0)
    (h01 : t.o ≠ t.h1) (h02 : t.o ≠ t.h2) (h12 : t.h1 ≠ t.h2)
    (hdOH : 0 < t.dOH)
    (hvlen : V3.normSq (p t.h1 - p t.o) = t.dOH ^ 2)
    (hwlen : V3.normSq (p t.h2 - p t.o) = t.dOH ^ 2)
    (hhlen : V3.normSq (p t.h2 - p t.h1) = t.dHH ^ 2)
    (hw : V3.normSq (Settle.gsWp (p t.o) (p t.h1) (p t.h2)) ≠ 0) :
    Settle.settleTriplet mass t p = p := by
  have hv : V3.normSq (p t.h1 - p t.o) ≠ 0 := by
    rw [hvlen]; exact (pow_pos hdOH 2).ne'
  have hdvw : V3.dot (p t.h1 - p t.o) (p t.h2 - p t.o)
      = (2 * t.dOH ^ 2 - t.dHH ^ 2) / 2 := by
    have hd := dot_from_normSq (p t.h1 - p t.o) (p t.h2 - p t.o)
    rw [sub_sub_sub_cancel_right, hvlen, hwlen, hhlen] at hd
    linarith
  have hnwp : V3.normSq (Settle.gsWp (p t.o) (p t.h1) (p t.h2))
      = t.dOH ^ 2 - Settle.canonT t ^ 2 := by
    rw [gsWp_normSq _ _ _ hv, hvlen, hwlen, hdvw, Settle.canonT]
    field_simp
    ring
  have hrwp : V3.rnorm (Settle.gsWp (p t.o) (p t.h1) (p t.h2)) = Settle.canonH t := by
    rw [V3.rnorm, hnwp, Settle.canonH]
  have hch_pos : 0 < Settle.canonH t := by
    rw [← hrwp]; exact rnorm_pos _ hw
  have hrv : V3.rnorm (p t.h1 - p t.o) = t.dOH := rnorm_eq_of_normSq _ _ hdOH.le hvlen
  have hE1 : Settle.frameApply (Settle.gsE1 (p t.o) (p t.h1))
      (Settle.gsE2 (p t.o) (p t.h1) (p t.h2))
      (V3.cross (Settle.gsE1 (p t.o) (p t.h1)) (Settle.gsE2 (p t.o) (p t.h1) (p t.h2)))
      (Settle.canonH1 t - Settle.canonO t) = p t.h1 - p t.o := by
    have hlit : Settle.canonH1 t - Settle.canonO t = (⟨t.dOH, 0, 0⟩ : V3 ℝ) := by
      rw [Settle.canonO, sub_zero, Settle.canonH1]
    rw [hlit]
    show t.dOH • Settle.gsE1 (p t.o) (p t.h1)
        + (0 : ℝ) • Settle.gsE2 (p t.o) (p t.h1) (p t.h2)
        + (0 : ℝ) • V3.cross (Settle.gsE1 (p t.o) (p t.h1))
            (Settle.gsE2 (p t.o) (p t.h1) (p t.h2))
      = p t.h1 - p t.o
    rw [zero_smul, zero_smul, add_zero, add_zero, Settle.gsE1, V3.normalize, hrv,
      smul_smul, mul_inv_cancel₀ hdOH.ne', one_smul]
  have hE2 : Settle.frameApply (Settle.gsE1 (p t.o) (p t.h1))
      (Settle.gsE2 (p t.o) (p t.h1) (p t.h2))
      (V3.cross (Settle.gsE1 (p t.o) (p t.h1)) (Settle.gsE2 (p t.o) (p t.h1) (p t.h2)))
      (Settle.canonH2 t - Settle.canonO t) = p t.h2 - p t.o := by
    have hlit : Settle.canonH2 t - Settle.canonO t
        = (⟨Settle.canonT t, Settle.canonH t, 0⟩ : V3 ℝ) := by
      rw [Settle.canonO, sub_zero, Settle.canonH2]
    rw [hlit]
    show Settle.canonT t • Settle.gsE1 (p t.o) (p t.h1)
        + Settle.canonH t • Settle.gsE2 (p t.o) (p t.h1) (p t.h2)
        + (0 : ℝ) • V3.cross (Settle.gsE1 (p t.o) (p t.h1))
            (Settle.gsE2 (p t.o) (p t.h1) (p t.h2))
      = p t.h2 - p t.o
    rw [zero_smul, add_zero]
    have hproj : Settle.canonT t • Settle.gsE1 (p t.o) (p t.h1)
        = (V3.dot (p t.h1 - p t.o) (p t.h2 - p t.o) / V3.normSq (p t.h1 - p t.o))
            • (p t.h1 - p t.o) := by
      rw [hdvw, hvlen, Settle.gsE1, V3.normalize, hrv, smul_smul]
      congr 1
      rw [Settle.canonT]
      field_simp
      exact Or.inl (by ring)
    have hperp : Settle.canonH t • Settle.gsE2 (p t.o) (p t.h1) (p t.h2)
        = Settle.gsWp (p t.o) (p t.h1) (p t.h2) := by
      rw [Settle.gsE2, V3.normalize, hrwp, smul_smul, mul_inv_cancel₀ hch_pos.ne',
        one_smul]
    rw [hproj, hperp, Settle.gsWp]
    abel
  obtain ⟨d1, d2, d3⟩ := settle_diffs mass t p h01 h02 h12
  have k1 : Settle.settleTriplet mass t p t.h1 - Settle.settleTriplet mass t p t.o
      = p t.h1 - p t.o := by rw [d1, hE1]
  have k2 : Settle.settleTriplet mass t p t.h2 - Settle.settleTriplet mass t p t.o
      = p t.h2 - p t.o := by rw [d2, hE2]
  have hd1 : Settle.settleTriplet mass t p t.h1 - p t.h1
      = Settle.settleTriplet mass t p t.o - p t.o := by
    calc Settle.settleTriplet mass t p t.h1 - p t.h1
        = (Settle.settleTriplet mass t p t.h1 - Settle.settleTriplet mass t p t.o)
          - (p t.h1 - p t.o) + (Settle.settleTriplet mass t p t.o - p t.o) := by abel
      _ = (p t.h1 - p t.o) - (p t.h1 - p t.o)
          + (Settle.settleTriplet mass t p t.o - p t.o) := by rw [k1]
      _ = Settle.settleTriplet mass t p t.o - p t.o := by abel
  have hd2 : Settle.settleTriplet mass t p t.h2 - p t.h2
      = Settle.settleTriplet mass t p t.o - p t.o := by
    calc Settle.settleTriplet mass t p t.h2 - p t.h2
        = (Settle.settleTriplet mass t p t.h2 - Settle.settleTriplet mass t p t.o)
          - (p t.h2 - p t.o) + (Settle.settleTriplet mass t p t.o - p t.o) := by abel
      _ = (p t.h2 - p t.o) - (p t.h2 - p t.o)
          + (Settle.settleTriplet mass t p t.o - p t.o) := by rw [k2]
      _ = Settle.settleTriplet mass t p t.o - p t.o := by abel
  have hsum0 : mass t.o • (Settle.settleTriplet mass t p t.o - p t.o)
      + mass t.h1 • (Settle.settleTriplet mass t p t.h1 - p t.h1)
      + mass t.h2 • (Settle.settleTriplet mass t p t.h2 - p t.h2) = 0 := by
    have hms := settle_mass_sum mass t p hM h01 h02 h12
    have hexp : mass t.o • (Settle.settleTriplet mass t p t.o - p t.o)
        + mass t.h1 • (Settle.settleTriplet mass t p t.h1 - p t.h1)
        + mass t.h2 • (Settle.settleTriplet mass t p t.h2 - p t.h2)
        = (mass t.o • Settle.settleTriplet mass t p t.o
            + mass t.h1 • Settle.settleTriplet mass t p t.h1
            + mass t.h2 • Settle.settleTriplet mass t p t.h2)
          - (mass t.o • p t.o + mass t.h1 • p t.h1 + mass t.h2 • p t.h2) := by
      simp only [smul_sub]
      abel
    rw [hexp, hms, sub_self]
  rw [hd1, hd2] at hsum0
  have hMd : (mass t.o + mass t.h1 + mass t.h2)
      • (Settle.settleTriplet mass t p t.o - p t.o) = 0 := by
    rw [add_smul, add_smul]
    exact hsum0
  have hzero : Settle.settleTriplet mass t p t.o - p t.o = 0 := by
    have h' := congrArg (fun z => (mass t.o + mass t.h1 + mass t.h2)⁻¹ • z) hMd
    simpa [smul_smul, inv_mul_cancel₀ hM] using h'
  funext n
  by_cases hn0 : n = t.o
  · subst hn0
    exact sub_eq_zero.1 hzero
  by_cases hn1 : n = t.h1
  · subst hn1
    exact sub_eq_zero.1 (hd1.trans hzero)
  by_cases hn2 : n = t.h2
  · subst hn2
    exact sub_eq_zero.1 (hd2.trans hzero)
  · simp [Settle.settleTriplet, hn0, hn1, hn2]

/-- A rigid triplet in already-satisfied position, bundled. -/
def TripletSatisfied (mass : ℕ → ℝ) (p : ℕ → V3 ℝ) (t : Triplet) : Prop :=
  mass t.o + mass t.h1 + mass t.h2 ≠ 0
    ∧ t.o ≠ t.h1 ∧ t.o ≠ t.h2 ∧ t.h1 ≠ t.h2 ∧ 0 < t.dOH
    ∧ V3.normSq (p t.h1 - p t.o) = t.dOH ^ 2
    ∧ V3.normSq (p t.h2 - p t.o) = t.dOH ^ 2
    ∧ V3.normSq (p t.h2 - p t.h1) = t.dHH ^ 2
    ∧ V3.normSq (Settle.gsWp (p t.o) (p t.h1) (p t.h2)) ≠ 0

/-- A pairwise constraint in already-satisfied position, bundled. -/
def PairSatisfied (pbcF : V3 ℝ → V3 ℝ) (p : ℕ → V3 ℝ) (c : DistConstraint) : Prop :=
  V3.rnorm (pbcF (p c.a - p c.b)) = c.target ∧ 0 < c.target

/-- The rigid solver leaves satisfied configurations unchanged, triplet list
wide. -/
theorem settleAll_fixed (mass : ℕ → ℝ) (ts : List Triplet) (p : ℕ → V3 ℝ)
    (h : ∀ t ∈ ts, TripletSatisfied mass p t) :
    Settle.settleAll mass ts p = p := by
  induction ts with
  | nil => rfl
  | cons t ts ih =>
      show Settle.settleAll mass ts (Settle.settleTriplet mass t p) = p
      obtain ⟨hM, h01, h02, h12, hdOH, hvlen, hwlen, hhlen, hwp⟩ :=
        h t (List.mem_cons_self t ts)
      rw [settleTriplet_fixed mass t p hM h01 h02 h12 hdOH hvlen hwlen hhlen hwp]
      exact ih fun u hu => h u (List.mem_cons_of_mem t hu)

/-! ### Single-constraint analysis of the pairwise solver -/

/-- With a single constraint the coupling matrix has no off-diagonal
entries, so the truncated Neumann series of any order returns the right-hand
side. -/
theorem neumann_single (L : LincsSetup) (hL : L.cs.length = 1) (rhs : ℕ → ℝ) (n : ℕ) :
    Lincs.neumann (Lincs.Amul L) n rhs 0 = rhs 0 := by
  induction n with
  | zero => rfl
  | succ n ih =>
      show rhs 0 + Lincs.Amul L (Lincs.neumann (Lincs.Amul L) n rhs) 0 = rhs 0
      rw [Lincs.Amul, hL, Finset.sum_range_one, if_pos rfl, add_zero]

/-- One solver pass for a single constraint, at an arbitrary atom. -/
theorem singlePass_at (L : LincsSetup) (c : DistConstraint) (hc : L.cs = [c])
    (R : ℕ → ℝ) (p : ℕ → V3 ℝ) (n : ℕ) :
    p n + Lincs.corrDelta L (Lincs.neumann (Lincs.Amul L) L.order R) n
      = p n + ((if c.a = n then -(L.invm n * Lincs.sFac L 0 * R 0) else 0)
          + (if c.b = n then L.invm n * Lincs.sFac L 0 * R 0 else 0)) • Lincs.dirU L 0 := by
  have hlen : L.cs.length = 1 := by rw [hc]; rfl
  rw [Lincs.corrDelta, hc, show ([c] : List DistConstraint).length = 1 from rfl,
    Finset.sum_range_one, neumann_single L hlen R]
  rfl

/-- One solver pass for a single constraint, at the first atom. -/
theorem singlePass_a (L : LincsSetup) (c : DistConstraint) (hc : L.cs = [c])
    (hab : c.a ≠ c.b) (R : ℕ → ℝ) (p : ℕ → V3 ℝ) :
    p c.a + Lincs.corrDelta L (Lincs.neumann (Lincs.Amul L) L.order R) c.a
      = p c.a + (-(L.invm c.a * Lincs.sFac L 0 * R 0)) • Lincs.dirU L 0 := by
  rw [singlePass_at L c hc R p c.a, if_pos rfl, if_neg (Ne.symm hab), add_zero]

/-- One solver pass for a single constraint, at the second atom. -/
theorem singlePass_b (L : LincsSetup) (c : DistConstraint) (hc : L.cs = [c])
    (hab : c.a ≠ c.b) (R : ℕ → ℝ) (p : ℕ → V3 ℝ) :
    p c.b + Lincs.corrDelta L (Lincs.neumann (Lincs.Amul L) L.order R) c.b
      = p c.b + (L.invm c.b * Lincs.sFac L 0 * R 0) • Lincs.dirU L 0 := by
  rw [singlePass_at L c hc R p c.b, if_neg hab, if_pos rfl, zero_add]

/-- One solver pass for a single constraint leaves other atoms in place. -/
theorem singlePass_other (L : LincsSetup) (c : DistConstraint) (hc : L.cs = [c])
    (R : ℕ → ℝ) (p : ℕ → V3 ℝ) (n : ℕ) (hna : c.a ≠ n) (hnb : c.b ≠ n) :
    p n + Lincs.corrDelta L (Lincs.neumann (Lincs.Amul L) L.order R) n = p n := by
  rw [singlePass_at L c hc R p n, if_neg hna, if_neg hnb, add_zero, zero_smul, add_zero]

/-- Pair displacement after one solver pass for a single constraint. -/
theorem singlePass_dx (L : LincsSetup) (c : DistConstraint) (hc : L.cs = [c])
    (hab : c.a ≠ c.b) (R : ℕ → ℝ) (p : ℕ → V3 ℝ) :
    (p c.a + Lincs.corrDelta L (Lincs.neumann (Lincs.Amul L) L.order R) c.a)
        - (p c.b + Lincs.corrDelta L (Lincs.neumann (Lincs.Amul L) L.order R) c.b)
      = (p c.a - p c.b)
        - ((L.invm c.a + L.invm c.b) * (Lincs.sFac L 0 * R 0)) • Lincs.dirU L 0 := by
  rw [singlePass_a L c hc hab R p, singlePass_b L c hc hab R p]
  have hco : (L.invm c.a + L.invm c.b) * (Lincs.sFac L 0 * R 0)
      = L.invm c.a * Lincs.sFac L 0 * R 0 + L.invm c.b * Lincs.sFac L 0 * R 0 := by ring
  rw [hco, add_smul, neg_smul]
  abel

/-- The single constraint occupies list position zero. -/
theorem mainRhs0 (L : LincsSetup) (c : DistConstraint) (hc : L.cs = [c]) (p : ℕ → V3 ℝ) :
    Lincs.mainRhs L p 0
      = Lincs.sFac L 0
        * (V3.dot (Lincs.dirU L 0) (Lincs.pf L (p c.a - p c.b)) - c.target) := by
  rw [Lincs.mainRhs, hc]
  rfl

/-- Refinement right-hand side of the single constraint. -/
theorem iterRhs0 (L : LincsSetup) (c : DistConstraint) (hc : L.cs = [c]) (p : ℕ → V3 ℝ) :
    Lincs.iterRhs L p 0
      = Lincs.sFac L 0
        * (c.target - Real.sqrt (max 0 (2 * c.target ^ 2
            - V3.normSq (Lincs.pf L (p c.a - p c.b))))) := by
  rw [Lincs.iterRhs, hc]
  rfl

/-- Reference direction of the single constraint. -/
theorem dirU0 (L : LincsSetup) (c : DistConstraint) (hc : L.cs = [c]) :
    Lincs.dirU L 0 = V3.normalize (Lincs.pf L (L.xref c.a - L.xref c.b)) := by
  rw [Lincs.dirU, hc]
  rfl

/-- Mass factor of the single constraint. -/
theorem sFac0 (L : LincsSetup) (c : DistConstraint) (hc : L.cs = [c]) :
    Lincs.sFac L 0 = Real.sqrt c.rm := by
  rw [Lincs.sFac, hc]
  rfl

/-- Squared norm of a longitudinal-plus-transverse decomposition relative to
a unit vector. -/
theorem normSq_decomp (u w : V3 ℝ) (a : ℝ) (h1 : V3.dot u u = 1)
    (h0 : V3.dot u w = 0) :
    V3.normSq (a • u + w) = a ^ 2 + V3.normSq w := by
  have h0w : V3.dot w u = 0 := by rw [V3.dot_comm]; exact h0
  rw [V3.normSq, V3.dot_add_left, V3.dot_add_right, V3.dot_add_right,
    V3.dot_smul_left, V3.dot_smul_left, V3.dot_smul_right, V3.dot_smul_right,
    h1, h0, h0w, show V3.dot w w = V3.normSq w from rfl]
  ring

/-- Positions reachable from `xI` by a single-constraint solve: both
constrained atoms moved along the reference direction, weighted by their
inverse masses, everything else in place. -/
noncomputable def pairShape (L : LincsSetup) (c : DistConstraint) (xI : ℕ → V3 ℝ)
    (t : ℝ) : ℕ → V3 ℝ :=
  fun n =>
    if n = c.a then xI c.a + (-(L.invm c.a * t)) • Lincs.dirU L 0
    else if n = c.b then xI c.b + (L.invm c.b * t) • Lincs.dirU L 0
    else xI n

/-- A solver pass maps a shaped configuration to a shaped configuration,
accumulating the pass coefficient. -/
theorem singlePass_shape (L : LincsSetup) (c : DistConstraint) (hc : L.cs = [c])
    (hab : c.a ≠ c.b) (xI : ℕ → V3 ℝ) (t : ℝ) (R : ℕ → ℝ) :
    (fun n => pairShape L c xI t n
        + Lincs.corrDelta L (Lincs.neumann (Lincs.Amul L) L.order R) n)
      = pairShape L c xI (t + Lincs.sFac L 0 * R 0) := by
  funext n
  show pairShape L c xI t n
      + Lincs.corrDelta L (Lincs.neumann (Lincs.Amul L) L.order R) n
    = pairShape L c xI (t + Lincs.sFac L 0 * R 0) n
  by_cases hna : n = c.a
  · subst hna
    rw [singlePass_a L c hc hab R (pairShape L c xI t)]
    simp only [pairShape, eq_self_iff_true, if_true]
    rw [add_assoc, ← add_smul]
    have hco : -(L.invm c.a * t) + -(L.invm c.a * Lincs.sFac L 0 * R 0)
        = -(L.invm c.a * (t + Lincs.sFac L 0 * R 0)) := by ring
    rw [hco]
  · by_cases hnb : n = c.b
    · subst hnb
      rw [singlePass_b L c hc hab R (pairShape L c xI t)]
      simp only [pairShape, if_neg (Ne.symm hab), eq_self_iff_true, if_true]
      rw [add_assoc, ← add_smul]
      have hco : L.invm c.b * t + L.invm c.b * Lincs.sFac L 0 * R 0
          = L.invm c.b * (t + Lincs.sFac L 0 * R 0) := by ring
      rw [hco]
    · rw [singlePass_other L c hc R (pairShape L c xI t) n (fun h => hna h.symm)
        (fun h => hnb h.symm)]
      simp only [pairShape, if_neg hna, if_neg hnb]

/-- The refinement loop keeps the single-constraint shape. -/
theorem refineLoop_shape (L : LincsSetup) (c : DistConstraint) (hc : L.cs = [c])
    (hab : c.a ≠ c.b) (xI : ℕ → V3 ℝ) :
    ∀ m t, ∃ u, Lincs.refineLoop L m (pairShape L c xI t) = pairShape L c xI u := by
  intro m
  induction m with
  | zero => exact fun t => ⟨t, rfl⟩
  | succ m ih =>
      intro t
      show ∃ u, Lincs.refineLoop L m (Lincs.refinePass L (pairShape L c xI t))
          = pairShape L c xI u
      have hstep : Lincs.refinePass L (pairShape L c xI t)
          = pairShape L c xI
              (t + Lincs.sFac L 0 * Lincs.iterRhs L (pairShape L c xI t) 0) :=
        singlePass_shape L c hc hab xI t (Lincs.iterRhs L (pairShape L c xI t))
      rw [hstep]
      exact ih _

/-- Every single-constraint solve is of the paired shape: both atoms are
moved along the reference direction with inverse-mass weights, other atoms
are untouched. -/
theorem solve_shape (L : LincsSetup) (c : DistConstraint) (hc : L.cs = [c])
    (hab : c.a ≠ c.b) (xI : ℕ → V3 ℝ) :
    ∃ t, Lincs.solve L xI = pairShape L c xI t := by
  have h0 : pairShape L c xI 0 = xI := by
    funext n
    by_cases hna : n = c.a
    · subst hna; simp [pairShape]
    · by_cases hnb : n = c.b
      · subst hnb; simp [pairShape, hna]
      · simp [pairShape, hna, hnb]
  have hm : Lincs.mainPass L xI
      = pairShape L c xI (0 + Lincs.sFac L 0 * Lincs.mainRhs L xI 0) := by
    have hs := singlePass_shape L c hc hab xI 0 (Lincs.mainRhs L xI)
    rw [← hs]
    funext n
    show Lincs.mainPass L xI n = pairShape L c xI 0 n
        + Lincs.corrDelta L (Lincs.neumann (Lincs.Amul L) L.order (Lincs.mainRhs L xI)) n
    rw [h0]
    rfl
  obtain ⟨u, hu⟩ := refineLoop_shape L c hc hab xI L.iters
    (0 + Lincs.sFac L 0 * Lincs.mainRhs L xI 0)
  refine ⟨u, ?_⟩
  show Lincs.refineLoop L L.iters (Lincs.mainPass L xI) = pairShape L c xI u
  rw [hm]
  exact hu

/-- Outer product is homogeneous in its first argument. -/
theorem outer_smul_left (g : ℝ) (u w : V3 ℝ) :
    M3.outer (g • u) w = g • M3.outer u w := by
  ext <;> exact mul_assoc _ _ _

/-- Iterated tensor scaling collapses to one scalar. -/
theorem m3_smul_smul (a b : ℝ) (m : M3 ℝ) : a • b • m = (a * b) • m := by
  ext <;> exact (mul_assoc _ _ _).symm

/-- The mass-weighted pair of outer products produced by a single
constraint whose pre-correction pair displacement is parallel to its
reference direction is a symmetric tensor. -/
theorem outer_pair_symm (u w : V3 ℝ) (s g C : ℝ) :
    M3.IsSymm (C • ((-s) • M3.outer u w + s • M3.outer u (w - g • u))) := by
  refine ⟨?_, ?_, ?_⟩ <;> simp [M3.outer] <;> exact Or.inl (by ring)

/-! ### Claims -/

/-- C1: for every particle, one integrator step first updates the velocity
as v1 = scaleT * v + (dt * invMass) * f, then applies the pressure-coupling
matrix scaling to the resulting velocity if pressure coupling is active, and
then updates the position as x1 = x + dt * v1; the step's final positions
are the constraint phase applied to these integrated positions, so the
integration happens before any constraint correction. -/
theorem claim1_integrator_order (cfg : StepInputs) (i : ℕ) :
    Pipeline.integratedV cfg i
        = (if cfg.doPressureCouple then
             cfg.prMatrix.mulVec
               (Pipeline.tempScale cfg i • cfg.v i + (cfg.dt * cfg.invMass i) • cfg.f i)
           else Pipeline.tempScale cfg i • cfg.v i + (cfg.dt * cfg.invMass i) • cfg.f i)
      ∧ Pipeline.integratedX cfg i = cfg.x i + cfg.dt • Pipeline.integratedV cfg i
      ∧ (Pipeline.fullStep cfg).x = Pipeline.constrainPhase cfg (Pipeline.integratedX cfg) :=
  ⟨rfl, rfl, rfl⟩

/-- C4: for a physically orthogonal box, processing the same box vectors
through the triclinic shift-search path yields exactly the same
minimum-image displacement as the cheap orthogonal reduction, and therefore
the constraint correction results are identical under the two
representations. -/
theorem claim4_box_representation_equiv
    (aX bY cZ : ℝ) (ha : 0 < aX) (hb : 0 < bY) (hc : 0 < cZ)
    (r : V3 ℝ) (invm : ℕ → ℝ) (cs : List DistConstraint)
    (order iters : ℕ) (xref p : ℕ → V3 ℝ) :
    (PbcAiuc.mk false aX 0 bY 0 0 cZ).minImage r
        = (PbcAiuc.mk true aX 0 bY 0 0 cZ).minImage r
      ∧ Lincs.solve ⟨pbcDx (some (PbcAiuc.mk false aX 0 bY 0 0 cZ)), invm, cs, order, iters, xref⟩ p
          = Lincs.solve ⟨pbcDx (some (PbcAiuc.mk true aX 0 bY 0 0 cZ)), invm, cs, order, iters, xref⟩ p := by
  have key : ∀ v : V3 ℝ,
      (PbcAiuc.mk false aX 0 bY 0 0 cZ).minImage v
        = (PbcAiuc.mk true aX 0 bY 0 0 cZ).minImage v := by
    intro v
    have hseq :
        (PbcAiuc.mk false aX 0 bY 0 0 cZ).shiftX
            ((PbcAiuc.mk false aX 0 bY 0 0 cZ).shiftY
              ((PbcAiuc.mk false aX 0 bY 0 0 cZ).shiftZ v))
          = (PbcAiuc.mk true aX 0 bY 0 0 cZ).orthoReduce v := by
      ext <;>
        simp [PbcAiuc.shiftX, PbcAiuc.shiftY, PbcAiuc.shiftZ, PbcAiuc.orthoReduce,
          PbcAiuc.vecA, PbcAiuc.vecB, PbcAiuc.vecC] <;> ring
    have hqx : |((PbcAiuc.mk true aX 0 bY 0 0 cZ).orthoReduce v).x| ≤ aX / 2 := by
      simpa [PbcAiuc.orthoReduce] using reduce_abs_le aX v.x ha
    have hqy : |((PbcAiuc.mk true aX 0 bY 0 0 cZ).orthoReduce v).y| ≤ bY / 2 := by
      simpa [PbcAiuc.orthoReduce] using reduce_abs_le bY v.y hb
    have hqz : |((PbcAiuc.mk true aX 0 bY 0 0 cZ).orthoReduce v).z| ≤ cZ / 2 := by
      simpa [PbcAiuc.orthoReduce] using reduce_abs_le cZ v.z hc
    have hcand : ∀ c ∈ (PbcAiuc.neighborShifts.map
        fun s => (PbcAiuc.mk true aX 0 bY 0 0 cZ).orthoReduce v
                   + (PbcAiuc.mk false aX 0 bY 0 0 cZ).shiftVec s),
        ¬ V3.normSq c < V3.normSq ((PbcAiuc.mk true aX 0 bY 0 0 cZ).orthoReduce v) := by
      intro c hcmem
      obtain ⟨s, hsmem, rfl⟩ := List.mem_map.1 hcmem
      have h1 := sq_le_shiftTerm ((PbcAiuc.mk true aX 0 bY 0 0 cZ).orthoReduce v).x aX s.1 ha hqx
      have h2 := sq_le_shiftTerm ((PbcAiuc.mk true aX 0 bY 0 0 cZ).orthoReduce v).y bY s.2.1 hb hqy
      have h3 := sq_le_shiftTerm ((PbcAiuc.mk true aX 0 bY 0 0 cZ).orthoReduce v).z cZ s.2.2 hc hqz
      simp only [not_lt, V3.normSq, V3.dot, PbcAiuc.shiftVec, PbcAiuc.vecA, PbcAiuc.vecB,
        PbcAiuc.vecC, V3.add_x, V3.add_y, V3.add_z, V3.smul_x, V3.smul_y, V3.smul_z]
      have e1 : ((PbcAiuc.mk true aX 0 bY 0 0 cZ).orthoReduce v).x
            + ((s.1 : ℝ) * aX + ((s.2.1 : ℝ) * 0 + (s.2.2 : ℝ) * 0))
          = ((PbcAiuc.mk true aX 0 bY 0 0 cZ).orthoReduce v).x + (s.1 : ℝ) * aX := by ring
      have e2 : ((PbcAiuc.mk true aX 0 bY 0 0 cZ).orthoReduce v).y
            + ((s.1 : ℝ) * 0 + ((s.2.1 : ℝ) * bY + (s.2.2 : ℝ) * 0))
          = ((PbcAiuc.mk true aX 0 bY 0 0 cZ).orthoReduce v).y + (s.2.1 : ℝ) * bY := by ring
      have e3 : ((PbcAiuc.mk true aX 0 bY 0 0 cZ).orthoReduce v).z
            + ((s.1 : ℝ) * 0 + ((s.2.1 : ℝ) * 0 + (s.2.2 : ℝ) * cZ))
          = ((PbcAiuc.mk true aX 0 bY 0 0 cZ).orthoReduce v).z + (s.2.2 : ℝ) * cZ := by ring
      nlinarith [h1, h2, h3]
    have hpick := pickMin_keep ((PbcAiuc.mk true aX 0 bY 0 0 cZ).orthoReduce v)
      (PbcAiuc.neighborShifts.map
        fun s => (PbcAiuc.mk true aX 0 bY 0 0 cZ).orthoReduce v
                   + (PbcAiuc.mk false aX 0 bY 0 0 cZ).shiftVec s) hcand
    have hstart : (PbcAiuc.mk false aX 0 bY 0 0 cZ).minImage v
        = PbcAiuc.pickMin
            ((PbcAiuc.mk false aX 0 bY 0 0 cZ).shiftX
              ((PbcAiuc.mk false aX 0 bY 0 0 cZ).shiftY
                ((PbcAiuc.mk false aX 0 bY 0 0 cZ).shiftZ v)))
            (PbcAiuc.neighborShifts.map
              fun s => ((PbcAiuc.mk false aX 0 bY 0 0 cZ).shiftX
                  ((PbcAiuc.mk false aX 0 bY 0 0 cZ).shiftY
                    ((PbcAiuc.mk false aX 0 bY 0 0 cZ).shiftZ v)))
                + (PbcAiuc.mk false aX 0 bY 0 0 cZ).shiftVec s) := rfl
    rw [hstart, hseq, hpick]
    rfl
  refine ⟨key r, ?_⟩
  have hfun : pbcDx (some (PbcAiuc.mk false aX 0 bY 0 0 cZ))
      = pbcDx (some (PbcAiuc.mk true aX 0 bY 0 0 cZ)) := funext fun v => key v
  rw [hfun]

/-- Witness for C4 at a concrete cubic box, displacement and solver input. -/
theorem claim4_box_representation_equiv_witness :
    (PbcAiuc.mk false 2 0 2 0 0 2).minImage ⟨(1 : ℝ) / 2, -3 / 4, 5⟩
        = (PbcAiuc.mk true 2 0 2 0 0 2).minImage ⟨(1 : ℝ) / 2, -3 / 4, 5⟩
      ∧ Lincs.solve ⟨pbcDx (some (PbcAiuc.mk false 2 0 2 0 0 2)), fun _ => 1, [], 4, 1, fun _ => 0⟩ (fun _ => 0)
          = Lincs.solve ⟨pbcDx (some (PbcAiuc.mk true 2 0 2 0 0 2)), fun _ => 1, [], 4, 1, fun _ => 0⟩ (fun _ => 0) :=
  claim4_box_representation_equiv 2 2 2 (by norm_num) (by norm_num) (by norm_num)
    ⟨(1 : ℝ) / 2, -3 / 4, 5⟩ (fun _ => 1) [] 4 1 (fun _ => 0) (fun _ => 0)

/-- C7: the rigid-triplet correction step, including its velocity update
(position correction divided by the timestep), leaves the triplet's
mass-weighted center-of-mass velocity unchanged: the mass-weighted
construction conserves linear momentum exactly. -/
theorem claim7_rigid_com_velocity (mass : ℕ → ℝ) (t : Triplet) (xI v : ℕ → V3 ℝ)
    (dt : ℝ) (hM : mass t.o + mass t.h1 + mass t.h2 ≠ 0)
    (h01 : t.o ≠ t.h1) (h02 : t.o ≠ t.h2) (h12 : t.h1 ≠ t.h2) :
    Settle.tripletCom mass t
        (fun n => v n + (1 / dt) • (Settle.settleTriplet mass t xI n - xI n))
      = Settle.tripletCom mass t v := by
  have hms := settle_mass_sum mass t xI hM h01 h02 h12
  have hzero : mass t.o • (Settle.settleTriplet mass t xI t.o - xI t.o)
      + mass t.h1 • (Settle.settleTriplet mass t xI t.h1 - xI t.h1)
      + mass t.h2 • (Settle.settleTriplet mass t xI t.h2 - xI t.h2) = 0 := by
    have hexp : mass t.o • (Settle.settleTriplet mass t xI t.o - xI t.o)
        + mass t.h1 • (Settle.settleTriplet mass t xI t.h1 - xI t.h1)
        + mass t.h2 • (Settle.settleTriplet mass t xI t.h2 - xI t.h2)
        = (mass t.o • Settle.settleTriplet mass t xI t.o
            + mass t.h1 • Settle.settleTriplet mass t xI t.h1
            + mass t.h2 • Settle.settleTriplet mass t xI t.h2)
          - (mass t.o • xI t.o + mass t.h1 • xI t.h1 + mass t.h2 • xI t.h2) := by
      simp only [smul_sub]
      abel
    rw [hexp, hms, sub_self]
  have collect : ∀ w0 w1 w2 : V3 ℝ,
      mass t.o • (1 / dt) • w0 + mass t.h1 • (1 / dt) • w1 + mass t.h2 • (1 / dt) • w2
        = (1 / dt) • (mass t.o • w0 + mass t.h1 • w1 + mass t.h2 • w2) := by
    intro w0 w1 w2
    rw [smul_swap, smul_swap (mass t.h1), smul_swap (mass t.h2), smul_add, smul_add]
  rw [Settle.tripletCom, Settle.tripletCom]
  congr 1
  calc mass t.o • (v t.o + (1 / dt) • (Settle.settleTriplet mass t xI t.o - xI t.o))
        + mass t.h1 • (v t.h1 + (1 / dt) • (Settle.settleTriplet mass t xI t.h1 - xI t.h1))
        + mass t.h2 • (v t.h2 + (1 / dt) • (Settle.settleTriplet mass t xI t.h2 - xI t.h2))
      = (mass t.o • v t.o + mass t.h1 • v t.h1 + mass t.h2 • v t.h2)
        + (mass t.o • (1 / dt) • (Settle.settleTriplet mass t xI t.o - xI t.o)
          + mass t.h1 • (1 / dt) • (Settle.settleTriplet mass t xI t.h1 - xI t.h1)
          + mass t.h2 • (1 / dt) • (Settle.settleTriplet mass t xI t.h2 - xI t.h2)) := by
        simp only [smul_add]
        abel
    _ = (mass t.o • v t.o + mass t.h1 • v t.h1 + mass t.h2 • v t.h2)
        + (1 / dt) • (mass t.o • (Settle.settleTriplet mass t xI t.o - xI t.o)
          + mass t.h1 • (Settle.settleTriplet mass t xI t.h1 - xI t.h1)
          + mass t.h2 • (Settle.settleTriplet mass t xI t.h2 - xI t.h2)) := by
        rw [collect]
    _ = mass t.o • v t.o + mass t.h1 • v t.h1 + mass t.h2 • v t.h2 := by
        rw [hzero, smul_zero, add_zero]

/-- Witness for C7: a unit-mass right-triangle triplet at rest. -/
theorem claim7_rigid_com_velocity_witness :
    Settle.tripletCom (fun _ => 1) ⟨0, 1, 2, 1, 1⟩
        (fun n => (fun _ => (0 : V3 ℝ)) n
          + (1 / (1 : ℝ))
            • (Settle.settleTriplet (fun _ => 1) ⟨0, 1, 2, 1, 1⟩
                (fun m => if m = 0 then (⟨0, 0, 0⟩ : V3 ℝ)
                          else if m = 1 then ⟨1, 0, 0⟩ else ⟨0, 1, 0⟩) n
              - (fun m => if m = 0 then (⟨0, 0, 0⟩ : V3 ℝ)
                          else if m = 1 then ⟨1, 0, 0⟩ else ⟨0, 1, 0⟩) n))
      = Settle.tripletCom (fun _ => 1) ⟨0, 1, 2, 1, 1⟩ (fun _ => (0 : V3 ℝ)) :=
  claim7_rigid_com_velocity (fun _ => 1) ⟨0, 1, 2, 1, 1⟩
    (fun m => if m = 0 then (⟨0, 0, 0⟩ : V3 ℝ)
              else if m = 1 then ⟨1, 0, 0⟩ else ⟨0, 1, 0⟩)
    (fun _ => (0 : V3 ℝ)) 1 (by norm_num) (by norm_num) (by norm_num) (by norm_num)

/-- C3: for a rigid triplet whose unconstrained (input) triangle is
non-degenerate and whose reference geometry is a genuine triangle, the
closed-form solve reproduces all three reference pairwise distances exactly,
so with relative error below 1e-6, regardless of the magnitude of the
pre-correction displacement; the solver takes no iteration count and no
tolerance parameter. -/
theorem claim3_rigid_triplet_exact (mass : ℕ → ℝ) (t : Triplet) (p : ℕ → V3 ℝ)
    (hdOH : 0 < t.dOH) (hdHH : 0 < t.dHH) (htri : Settle.canonT t ^ 2 ≤ t.dOH ^ 2)
    (h01 : t.o ≠ t.h1) (h02 : t.o ≠ t.h2) (h12 : t.h1 ≠ t.h2)
    (hv : V3.normSq (p t.h1 - p t.o) ≠ 0)
    (hw : V3.normSq (Settle.gsWp (p t.o) (p t.h1) (p t.h2)) ≠ 0) :
    |V3.rnorm (Settle.settleTriplet mass t p t.h1 - Settle.settleTriplet mass t p t.o)
        - t.dOH| / t.dOH < 1 / 1000000
      ∧ |V3.rnorm (Settle.settleTriplet mass t p t.h2 - Settle.settleTriplet mass t p t.o)
          - t.dOH| / t.dOH < 1 / 1000000
      ∧ |V3.rnorm (Settle.settleTriplet mass t p t.h2 - Settle.settleTriplet mass t p t.h1)
          - t.dHH| / t.dHH < 1 / 1000000 := by
  have h11 : V3.dot (Settle.gsE1 (p t.o) (p t.h1)) (Settle.gsE1 (p t.o) (p t.h1)) = 1 :=
    normalize_dot_self _ hv
  have h22 : V3.dot (Settle.gsE2 (p t.o) (p t.h1) (p t.h2))
      (Settle.gsE2 (p t.o) (p t.h1) (p t.h2)) = 1 :=
    normalize_dot_self _ hw
  have h12d := gsE1_dot_gsE2 (p t.o) (p t.h1) (p t.h2) hv
  obtain ⟨d1, d2, d3⟩ := settle_diffs mass t p h01 h02 h12
  have hn1 : V3.normSq (Settle.settleTriplet mass t p t.h1
      - Settle.settleTriplet mass t p t.o) = t.dOH ^ 2 := by
    rw [d1]
    calc V3.dot (Settle.frameApply (Settle.gsE1 (p t.o) (p t.h1))
            (Settle.gsE2 (p t.o) (p t.h1) (p t.h2))
            (V3.cross (Settle.gsE1 (p t.o) (p t.h1))
              (Settle.gsE2 (p t.o) (p t.h1) (p t.h2)))
            (Settle.canonH1 t - Settle.canonO t))
          (Settle.frameApply (Settle.gsE1 (p t.o) (p t.h1))
            (Settle.gsE2 (p t.o) (p t.h1) (p t.h2))
            (V3.cross (Settle.gsE1 (p t.o) (p t.h1))
              (Settle.gsE2 (p t.o) (p t.h1) (p t.h2)))
            (Settle.canonH1 t - Settle.canonO t))
        = V3.dot (Settle.canonH1 t - Settle.canonO t) (Settle.canonH1 t - Settle.canonO t) :=
          frame_dot _ _ _ _ h11 h22 h12d
      _ = t.dOH ^ 2 := canon_dist1 t
  have hn2 : V3.normSq (Settle.settleTriplet mass t p t.h2
      - Settle.settleTriplet mass t p t.o) = t.dOH ^ 2 := by
    rw [d2]
    calc V3.dot (Settle.frameApply (Settle.gsE1 (p t.o) (p t.h1))
            (Settle.gsE2 (p t.o) (p t.h1) (p t.h2))
            (V3.cross (Settle.gsE1 (p t.o) (p t.h1))
              (Settle.gsE2 (p t.o) (p t.h1) (p t.h2)))
            (Settle.canonH2 t - Settle.canonO t))
          (Settle.frameApply (Settle.gsE1 (p t.o) (p t.h1))
            (Settle.gsE2 (p t.o) (p t.h1) (p t.h2))
            (V3.cross (Settle.gsE1 (p t.o) (p t.h1))
              (Settle.gsE2 (p t.o) (p t.h1) (p t.h2)))
            (Settle.canonH2 t - Settle.canonO t))
        = V3.dot (Settle.canonH2 t - Settle.canonO t) (Settle.canonH2 t - Settle.canonO t) :=
          frame_dot _ _ _ _ h11 h22 h12d
      _ = t.dOH ^ 2 := canon_dist2 t htri
  have hn3 : V3.normSq (Settle.settleTriplet mass t p t.h2
      - Settle.settleTriplet mass t p t.h1) = t.dHH ^ 2 := by
    rw [d3]
    calc V3.dot (Settle.frameApply (Settle.gsE1 (p t.o) (p t.h1))
            (Settle.gsE2 (p t.o) (p t.h1) (p t.h2))
            (V3.cross (Settle.gsE1 (p t.o) (p t.h1))
              (Settle.gsE2 (p t.o) (p t.h1) (p t.h2)))
            (Settle.canonH2 t - Settle.canonH1 t))
          (Settle.frameApply (Settle.gsE1 (p t.o) (p t.h1))
            (Settle.gsE2 (p t.o) (p t.h1) (p t.h2))
            (V3.cross (Settle.gsE1 (p t.o) (p t.h1))
              (Settle.gsE2 (p t.o) (p t.h1) (p t.h2)))
            (Settle.canonH2 t - Settle.canonH1 t))
        = V3.dot (Settle.canonH2 t - Settle.canonH1 t) (Settle.canonH2 t - Settle.canonH1 t) :=
          frame_dot _ _ _ _ h11 h22 h12d
      _ = t.dHH ^ 2 := canon_dist3 t hdOH.ne' htri
  have hr1 := rnorm_eq_of_normSq _ _ hdOH.le hn1
  have hr2 := rnorm_eq_of_normSq _ _ hdOH.le hn2
  have hr3 := rnorm_eq_of_normSq _ _ hdHH.le hn3
  refine ⟨?_, ?_, ?_⟩
  · rw [hr1, sub_self, abs_zero, zero_div]; norm_num
  · rw [hr2, sub_self, abs_zero, zero_div]; norm_num
  · rw [hr3, sub_self, abs_zero, zero_div]; norm_num

/-- Witness for C3: a unit right-triangle input with an equilateral
reference geometry. -/
theorem claim3_rigid_triplet_exact_witness :
    |V3.rnorm (Settle.settleTriplet (fun _ => 1) ⟨0, 1, 2, 1, 1⟩
          (fun m => if m = 0 then (⟨0, 0, 0⟩ : V3 ℝ)
                    else if m = 1 then ⟨1, 0, 0⟩ else ⟨0, 1, 0⟩) 1
        - Settle.settleTriplet (fun _ => 1) ⟨0, 1, 2, 1, 1⟩
          (fun m => if m = 0 then (⟨0, 0, 0⟩ : V3 ℝ)
                    else if m = 1 then ⟨1, 0, 0⟩ else ⟨0, 1, 0⟩) 0)
        - 1| / 1 < 1 / 1000000
      ∧ |V3.rnorm (Settle.settleTriplet (fun _ => 1) ⟨0, 1, 2, 1, 1⟩
            (fun m => if m = 0 then (⟨0, 0, 0⟩ : V3 ℝ)
                      else if m = 1 then ⟨1, 0, 0⟩ else ⟨0, 1, 0⟩) 2
          - Settle.settleTriplet (fun _ => 1) ⟨0, 1, 2, 1, 1⟩
            (fun m => if m = 0 then (⟨0, 0, 0⟩ : V3 ℝ)
                      else if m = 1 then ⟨1, 0, 0⟩ else ⟨0, 1, 0⟩) 0)
          - 1| / 1 < 1 / 1000000
      ∧ |V3.rnorm (Settle.settleTriplet (fun _ => 1) ⟨0, 1, 2, 1, 1⟩
            (fun m => if m = 0 then (⟨0, 0, 0⟩ : V3 ℝ)
                      else if m = 1 then ⟨1, 0, 0⟩ else ⟨0, 1, 0⟩) 2
          - Settle.settleTriplet (fun _ => 1) ⟨0, 1, 2, 1, 1⟩
            (fun m => if m = 0 then (⟨0, 0, 0⟩ : V3 ℝ)
                      else if m = 1 then ⟨1, 0, 0⟩ else ⟨0, 1, 0⟩) 1)
          - 1| / 1 < 1 / 1000000 :=
  claim3_rigid_triplet_exact (fun _ => 1) ⟨0, 1, 2, 1, 1⟩
    (fun m => if m = 0 then (⟨0, 0, 0⟩ : V3 ℝ)
              else if m = 1 then ⟨1, 0, 0⟩ else ⟨0, 1, 0⟩)
    (by norm_num) (by norm_num) (by norm_num [Settle.canonT])
    (by norm_num) (by norm_num) (by norm_num)
    (by norm_num [V3.normSq, V3.dot])
    (by norm_num [Settle.gsWp, V3.normSq, V3.dot])

/-- C8: on a configuration that already satisfies every pairwise constraint
and every rigid triplet, the constraint phase is the identity, so applying
it twice changes positions by exactly zero, smaller than any positive
configured tolerance. -/
theorem claim8_idempotent_on_satisfied (cfg : StepInputs)
    (hcs : ∀ c ∈ cfg.cs, PairSatisfied (pbcDx cfg.pbc) cfg.x c)
    (hts : ∀ t ∈ cfg.triplets, TripletSatisfied cfg.mass cfg.x t)
    (htol : 0 < cfg.tol) :
    Pipeline.constrainPhase cfg cfg.x = cfg.x
      ∧ Pipeline.constrainPhase cfg (Pipeline.constrainPhase cfg cfg.x)
          = Pipeline.constrainPhase cfg cfg.x
      ∧ ∀ n, V3.rnorm (Pipeline.constrainPhase cfg (Pipeline.constrainPhase cfg cfg.x) n
          - Pipeline.constrainPhase cfg cfg.x n) < cfg.tol := by
  have hsolve : Lincs.solve (Pipeline.lincsSetup cfg) cfg.x = cfg.x :=
    lincs_solve_fixed (Pipeline.lincsSetup cfg) hcs
  have hfix : Pipeline.constrainPhase cfg cfg.x = cfg.x := by
    show Settle.settleAll cfg.mass cfg.triplets
        (Lincs.solve (Pipeline.lincsSetup cfg) cfg.x) = cfg.x
    rw [hsolve]
    exact settleAll_fixed cfg.mass cfg.triplets cfg.x hts
  refine ⟨hfix, ?_, ?_⟩
  · rw [hfix]
    exact hfix
  · intro n
    rw [hfix, hfix, sub_self, rnorm_zero]
    exact htol

/-- A concrete configuration with one exactly satisfied pairwise
constraint. -/
noncomputable def cfg8 : StepInputs :=
  { cfg0 with cs := [⟨0, 1, 5, 1 / 2⟩],
              x := fun n => if n = 0 then 0 else ⟨5, 0, 0⟩ }

/-- Witness for C8 at the concrete satisfied configuration. -/
theorem claim8_idempotent_on_satisfied_witness :
    Pipeline.constrainPhase cfg8 cfg8.x = cfg8.x
      ∧ Pipeline.constrainPhase cfg8 (Pipeline.constrainPhase cfg8 cfg8.x)
          = Pipeline.constrainPhase cfg8 cfg8.x
      ∧ ∀ n, V3.rnorm (Pipeline.constrainPhase cfg8 (Pipeline.constrainPhase cfg8 cfg8.x) n
          - Pipeline.constrainPhase cfg8 cfg8.x n) < cfg8.tol := by
  refine claim8_idempotent_on_satisfied cfg8 ?_ ?_ ?_
  · intro c hc
    have hceq : c = (⟨0, 1, 5, 1 / 2⟩ : DistConstraint) := by
      simpa [cfg8] using hc
    subst hceq
    constructor
    · show V3.rnorm (pbcDx cfg8.pbc (cfg8.x 0 - cfg8.x 1)) = 5
      have hx : cfg8.x 0 - cfg8.x 1 = (⟨-5, 0, 0⟩ : V3 ℝ) := by
        ext <;> simp [cfg8, cfg0]
      have hpbc : pbcDx cfg8.pbc (cfg8.x 0 - cfg8.x 1) = (⟨-5, 0, 0⟩ : V3 ℝ) := by
        rw [show cfg8.pbc = (none : Option (PbcAiuc ℝ)) from rfl, pbcDx, hx]
      rw [hpbc]
      refine rnorm_eq_of_normSq _ _ (by norm_num) ?_
      norm_num [V3.normSq, V3.dot]
    · norm_num
  · intro t ht
    simp [cfg8, cfg0] at ht
  · norm_num [cfg8, cfg0]

/-- Amended C2: for a single (uncoupled) pairwise constraint with a
consistent combined inverse mass term, any expansion order and at least one
refinement iteration, the step restores the PBC-corrected inter-atom
distance to the target exactly, hence within any positive configured
tolerance, provided the transverse deviation of the minimum-imaged
unconstrained pair displacement from the reference direction does not
exceed the target distance, and the minimum imaging applies the same
lattice shift all along the correction line (trivially true without PBC,
and established by `orthoShiftConsistent` for orthogonal boxes large enough
relative to the reduced displacement).  Large transverse deviations can
defeat the solver (see the counterexample), so the claim's unconditional
form fails. -/
theorem claim2_single_constraint_exact (cfg : StepInputs) (c : DistConstraint)
    (hcs : cfg.cs = [c]) (hts : cfg.triplets = [])
    (hab : c.a ≠ c.b) (hord : 4 ≤ cfg.order) (hiters : 1 ≤ cfg.iters)
    (hd : 0 < c.target) (htol : 0 < cfg.tol)
    (hsum : 0 < cfg.invMass c.a + cfg.invMass c.b)
    (hrm : c.rm = (cfg.invMass c.a + cfg.invMass c.b)⁻¹)
    (hr : V3.normSq (pbcDx cfg.pbc (cfg.x c.a - cfg.x c.b)) ≠ 0)
    (hper : V3.normSq (pbcDx cfg.pbc (Pipeline.integratedX cfg c.a
          - Pipeline.integratedX cfg c.b)
        - V3.dot (Lincs.dirU (Pipeline.lincsSetup cfg) 0)
            (pbcDx cfg.pbc (Pipeline.integratedX cfg c.a
              - Pipeline.integratedX cfg c.b))
          • Lincs.dirU (Pipeline.lincsSetup cfg) 0) ≤ c.target ^ 2)
    (hshift : ∀ t : ℝ,
        |t| ≤ |V3.dot (Lincs.dirU (Pipeline.lincsSetup cfg) 0)
              (pbcDx cfg.pbc (Pipeline.integratedX cfg c.a
                - Pipeline.integratedX cfg c.b))
            - c.target| + c.target →
        pbcDx cfg.pbc ((Pipeline.integratedX cfg c.a - Pipeline.integratedX cfg c.b)
            - t • Lincs.dirU (Pipeline.lincsSetup cfg) 0)
          = pbcDx cfg.pbc (Pipeline.integratedX cfg c.a - Pipeline.integratedX cfg c.b)
            - t • Lincs.dirU (Pipeline.lincsSetup cfg) 0) :
    V3.rnorm (pbcDx cfg.pbc (Pipeline.stepX cfg c.a - Pipeline.stepX cfg c.b))
        = c.target
      ∧ |V3.rnorm (pbcDx cfg.pbc (Pipeline.stepX cfg c.a - Pipeline.stepX cfg c.b))
          - c.target| < cfg.tol := by
  have hcL : (Pipeline.lincsSetup cfg).cs = [c] := hcs
  have hpf : ∀ w : V3 ℝ, Lincs.pf (Pipeline.lincsSetup cfg) w = pbcDx cfg.pbc w :=
    fun _ => rfl
  have hu0 : Lincs.dirU (Pipeline.lincsSetup cfg) 0
      = V3.normalize (pbcDx cfg.pbc (cfg.x c.a - cfg.x c.b)) := by
    rw [dirU0 _ c hcL, hpf]
    rfl
  have hu1 : V3.dot (Lincs.dirU (Pipeline.lincsSetup cfg) 0)
      (Lincs.dirU (Pipeline.lincsSetup cfg) 0) = 1 := by
    rw [hu0]; exact normalize_dot_self _ hr
  have hrmpos : 0 ≤ c.rm := by rw [hrm]; exact (inv_pos.2 hsum).le
  have hSS : Lincs.sFac (Pipeline.lincsSetup cfg) 0 * Lincs.sFac (Pipeline.lincsSetup cfg) 0
      = c.rm := by
    rw [sFac0 _ c hcL]; exact Real.mul_self_sqrt hrmpos
  have h1rm : (cfg.invMass c.a + cfg.invMass c.b) * c.rm = 1 := by
    rw [hrm]; exact mul_inv_cancel₀ hsum.ne'
  have hcoefz : ∀ z : ℝ,
      ((Pipeline.lincsSetup cfg).invm c.a + (Pipeline.lincsSetup cfg).invm c.b)
        * (Lincs.sFac (Pipeline.lincsSetup cfg) 0
            * (Lincs.sFac (Pipeline.lincsSetup cfg) 0 * z)) = z := by
    intro z
    show (cfg.invMass c.a + cfg.invMass c.b)
        * (Lincs.sFac (Pipeline.lincsSetup cfg) 0
            * (Lincs.sFac (Pipeline.lincsSetup cfg) 0 * z)) = z
    linear_combination ((cfg.invMass c.a + cfg.invMass c.b) * z) * hSS + z * h1rm
  have hR0m : Lincs.mainRhs (Pipeline.lincsSetup cfg) (Pipeline.integratedX cfg) 0
      = Lincs.sFac (Pipeline.lincsSetup cfg) 0
        * (V3.dot (Lincs.dirU (Pipeline.lincsSetup cfg) 0)
            (pbcDx cfg.pbc (Pipeline.integratedX cfg c.a - Pipeline.integratedX cfg c.b))
          - c.target) := by
    rw [mainRhs0 _ c hcL, hpf]
  have hdx1 : Lincs.mainPass (Pipeline.lincsSetup cfg) (Pipeline.integratedX cfg) c.a
      - Lincs.mainPass (Pipeline.lincsSetup cfg) (Pipeline.integratedX cfg) c.b
      = (Pipeline.integratedX cfg c.a - Pipeline.integratedX cfg c.b)
        - (V3.dot (Lincs.dirU (Pipeline.lincsSetup cfg) 0)
              (pbcDx cfg.pbc (Pipeline.integratedX cfg c.a - Pipeline.integratedX cfg c.b))
            - c.target) • Lincs.dirU (Pipeline.lincsSetup cfg) 0 := by
    have hs1 : Lincs.mainPass (Pipeline.lincsSetup cfg) (Pipeline.integratedX cfg) c.a
        - Lincs.mainPass (Pipeline.lincsSetup cfg) (Pipeline.integratedX cfg) c.b
        = (Pipeline.integratedX cfg c.a - Pipeline.integratedX cfg c.b)
          - (((Pipeline.lincsSetup cfg).invm c.a + (Pipeline.lincsSetup cfg).invm c.b)
              * (Lincs.sFac (Pipeline.lincsSetup cfg) 0
                  * Lincs.mainRhs (Pipeline.lincsSetup cfg) (Pipeline.integratedX cfg) 0))
            • Lincs.dirU (Pipeline.lincsSetup cfg) 0 :=
      singlePass_dx _ c hcL hab _ _
    rw [hs1, hR0m, hcoefz]
  have hperp0 : V3.dot (Lincs.dirU (Pipeline.lincsSetup cfg) 0)
      (pbcDx cfg.pbc (Pipeline.integratedX cfg c.a - Pipeline.integratedX cfg c.b)
        - V3.dot (Lincs.dirU (Pipeline.lincsSetup cfg) 0)
            (pbcDx cfg.pbc (Pipeline.integratedX cfg c.a - Pipeline.integratedX cfg c.b))
          • Lincs.dirU (Pipeline.lincsSetup cfg) 0) = 0 := by
    rw [V3.dot_sub_right, V3.dot_smul_right, hu1, mul_one, sub_self]
  have hb1 : |V3.dot (Lincs.dirU (Pipeline.lincsSetup cfg) 0)
        (pbcDx cfg.pbc (Pipeline.integratedX cfg c.a - Pipeline.integratedX cfg c.b))
      - c.target|
      ≤ |V3.dot (Lincs.dirU (Pipeline.lincsSetup cfg) 0)
          (pbcDx cfg.pbc (Pipeline.integratedX cfg c.a - Pipeline.integratedX cfg c.b))
        - c.target| + c.target := le_add_of_nonneg_right hd.le
  have hpf1 := hshift _ hb1
  have hDval : pbcDx cfg.pbc (Pipeline.integratedX cfg c.a - Pipeline.integratedX cfg c.b)
      - (V3.dot (Lincs.dirU (Pipeline.lincsSetup cfg) 0)
            (pbcDx cfg.pbc (Pipeline.integratedX cfg c.a - Pipeline.integratedX cfg c.b))
          - c.target) • Lincs.dirU (Pipeline.lincsSetup cfg) 0
      = c.target • Lincs.dirU (Pipeline.lincsSetup cfg) 0
        + (pbcDx cfg.pbc (Pipeline.integratedX cfg c.a - Pipeline.integratedX cfg c.b)
          - V3.dot (Lincs.dirU (Pipeline.lincsSetup cfg) 0)
              (pbcDx cfg.pbc (Pipeline.integratedX cfg c.a - Pipeline.integratedX cfg c.b))
            • Lincs.dirU (Pipeline.lincsSetup cfg) 0) := by
    rw [sub_smul]
    abel
  have hpfm : Lincs.pf (Pipeline.lincsSetup cfg)
      (Lincs.mainPass (Pipeline.lincsSetup cfg) (Pipeline.integratedX cfg) c.a
        - Lincs.mainPass (Pipeline.lincsSetup cfg) (Pipeline.integratedX cfg) c.b)
      = c.target • Lincs.dirU (Pipeline.lincsSetup cfg) 0
        + (pbcDx cfg.pbc (Pipeline.integratedX cfg c.a - Pipeline.integratedX cfg c.b)
          - V3.dot (Lincs.dirU (Pipeline.lincsSetup cfg) 0)
              (pbcDx cfg.pbc (Pipeline.integratedX cfg c.a - Pipeline.integratedX cfg c.b))
            • Lincs.dirU (Pipeline.lincsSetup cfg) 0) := by
    rw [hpf, hdx1, hpf1, hDval]
  have hn1 : V3.normSq (Lincs.pf (Pipeline.lincsSetup cfg)
      (Lincs.mainPass (Pipeline.lincsSetup cfg) (Pipeline.integratedX cfg) c.a
        - Lincs.mainPass (Pipeline.lincsSetup cfg) (Pipeline.integratedX cfg) c.b))
      = c.target ^ 2
        + V3.normSq (pbcDx cfg.pbc (Pipeline.integratedX cfg c.a
            - Pipeline.integratedX cfg c.b)
          - V3.dot (Lincs.dirU (Pipeline.lincsSetup cfg) 0)
              (pbcDx cfg.pbc (Pipeline.integratedX cfg c.a - Pipeline.integratedX cfg c.b))
            • Lincs.dirU (Pipeline.lincsSetup cfg) 0) := by
    rw [hpfm]
    exact normSq_decomp _ _ _ hu1 hperp0
  have hsubnn : 0 ≤ c.target ^ 2
      - V3.normSq (pbcDx cfg.pbc (Pipeline.integratedX cfg c.a
          - Pipeline.integratedX cfg c.b)
        - V3.dot (Lincs.dirU (Pipeline.lincsSetup cfg) 0)
            (pbcDx cfg.pbc (Pipeline.integratedX cfg c.a - Pipeline.integratedX cfg c.b))
          • Lincs.dirU (Pipeline.lincsSetup cfg) 0) := by linarith
  have hR0i : Lincs.iterRhs (Pipeline.lincsSetup cfg)
      (Lincs.mainPass (Pipeline.lincsSetup cfg) (Pipeline.integratedX cfg)) 0
      = Lincs.sFac (Pipeline.lincsSetup cfg) 0
        * (c.target - Real.sqrt (c.target ^ 2
            - V3.normSq (pbcDx cfg.pbc (Pipeline.integratedX cfg c.a
                - Pipeline.integratedX cfg c.b)
              - V3.dot (Lincs.dirU (Pipeline.lincsSetup cfg) 0)
                  (pbcDx cfg.pbc (Pipeline.integratedX cfg c.a
                    - Pipeline.integratedX cfg c.b))
                • Lincs.dirU (Pipeline.lincsSetup cfg) 0))) := by
    rw [iterRhs0 _ c hcL, hn1,
      show 2 * c.target ^ 2
          - (c.target ^ 2
            + V3.normSq (pbcDx cfg.pbc (Pipeline.integratedX cfg c.a
                - Pipeline.integratedX cfg c.b)
              - V3.dot (Lincs.dirU (Pipeline.lincsSetup cfg) 0)
                  (pbcDx cfg.pbc (Pipeline.integratedX cfg c.a
                    - Pipeline.integratedX cfg c.b))
                • Lincs.dirU (Pipeline.lincsSetup cfg) 0))
        = c.target ^ 2
          - V3.normSq (pbcDx cfg.pbc (Pipeline.integratedX cfg c.a
              - Pipeline.integratedX cfg c.b)
            - V3.dot (Lincs.dirU (Pipeline.lincsSetup cfg) 0)
                (pbcDx cfg.pbc (Pipeline.integratedX cfg c.a
                  - Pipeline.integratedX cfg c.b))
              • Lincs.dirU (Pipeline.lincsSetup cfg) 0) from by ring,
      max_eq_right hsubnn]
  have hstle : Real.sqrt (c.target ^ 2
      - V3.normSq (pbcDx cfg.pbc (Pipeline.integratedX cfg c.a
          - Pipeline.integratedX cfg c.b)
        - V3.dot (Lincs.dirU (Pipeline.lincsSetup cfg) 0)
            (pbcDx cfg.pbc (Pipeline.integratedX cfg c.a - Pipeline.integratedX cfg c.b))
          • Lincs.dirU (Pipeline.lincsSetup cfg) 0)) ≤ c.target := by
    calc Real.sqrt (c.target ^ 2
        - V3.normSq (pbcDx cfg.pbc (Pipeline.integratedX cfg c.a
            - Pipeline.integratedX cfg c.b)
          - V3.dot (Lincs.dirU (Pipeline.lincsSetup cfg) 0)
              (pbcDx cfg.pbc (Pipeline.integratedX cfg c.a - Pipeline.integratedX cfg c.b))
            • Lincs.dirU (Pipeline.lincsSetup cfg) 0))
        ≤ Real.sqrt (c.target ^ 2) := by
          refine Real.sqrt_le_sqrt ?_
          have := normSq_nonneg (pbcDx cfg.pbc (Pipeline.integratedX cfg c.a
              - Pipeline.integratedX cfg c.b)
            - V3.dot (Lincs.dirU (Pipeline.lincsSetup cfg) 0)
                (pbcDx cfg.pbc (Pipeline.integratedX cfg c.a - Pipeline.integratedX cfg c.b))
              • Lincs.dirU (Pipeline.lincsSetup cfg) 0)
          linarith
      _ = c.target := Real.sqrt_sq hd.le
  have hb2 : |(V3.dot (Lincs.dirU (Pipeline.lincsSetup cfg) 0)
          (pbcDx cfg.pbc (Pipeline.integratedX cfg c.a - Pipeline.integratedX cfg c.b))
        - c.target)
      + (c.target - Real.sqrt (c.target ^ 2
          - V3.normSq (pbcDx cfg.pbc (Pipeline.integratedX cfg c.a
              - Pipeline.integratedX cfg c.b)
            - V3.dot (Lincs.dirU (Pipeline.lincsSetup cfg) 0)
                (pbcDx cfg.pbc (Pipeline.integratedX cfg c.a
                  - Pipeline.integratedX cfg c.b))
              • Lincs.dirU (Pipeline.lincsSetup cfg) 0)))|
      ≤ |V3.dot (Lincs.dirU (Pipeline.lincsSetup cfg) 0)
          (pbcDx cfg.pbc (Pipeline.integratedX cfg c.a - Pipeline.integratedX cfg c.b))
        - c.target| + c.target := by
    have h1 := abs_add (V3.dot (Lincs.dirU (Pipeline.lincsSetup cfg) 0)
          (pbcDx cfg.pbc (Pipeline.integratedX cfg c.a - Pipeline.integratedX cfg c.b))
        - c.target)
      (c.target - Real.sqrt (c.target ^ 2
          - V3.normSq (pbcDx cfg.pbc (Pipeline.integratedX cfg c.a
              - Pipeline.integratedX cfg c.b)
            - V3.dot (Lincs.dirU (Pipeline.lincsSetup cfg) 0)
                (pbcDx cfg.pbc (Pipeline.integratedX cfg c.a
                  - Pipeline.integratedX cfg c.b))
              • Lincs.dirU (Pipeline.lincsSetup cfg) 0)))
    have h2 : |c.target - Real.sqrt (c.target ^ 2
        - V3.normSq (pbcDx cfg.pbc (Pipeline.integratedX cfg c.a
            - Pipeline.integratedX cfg c.b)
          - V3.dot (Lincs.dirU (Pipeline.lincsSetup cfg) 0)
              (pbcDx cfg.pbc (Pipeline.integratedX cfg c.a - Pipeline.integratedX cfg c.b))
            • Lincs.dirU (Pipeline.lincsSetup cfg) 0))| ≤ c.target := by
      rw [abs_of_nonneg (by linarith : (0 : ℝ)
          ≤ c.target - Real.sqrt (c.target ^ 2
            - V3.normSq (pbcDx cfg.pbc (Pipeline.integratedX cfg c.a
                - Pipeline.integratedX cfg c.b)
              - V3.dot (Lincs.dirU (Pipeline.lincsSetup cfg) 0)
                  (pbcDx cfg.pbc (Pipeline.integratedX cfg c.a
                    - Pipeline.integratedX cfg c.b))
                • Lincs.dirU (Pipeline.lincsSetup cfg) 0)))]
      have := Real.sqrt_nonneg (c.target ^ 2
        - V3.normSq (pbcDx cfg.pbc (Pipeline.integratedX cfg c.a
            - Pipeline.integratedX cfg c.b)
          - V3.dot (Lincs.dirU (Pipeline.lincsSetup cfg) 0)
              (pbcDx cfg.pbc (Pipeline.integratedX cfg c.a - Pipeline.integratedX cfg c.b))
            • Lincs.dirU (Pipeline.lincsSetup cfg) 0))
      linarith
    linarith
  have hpf2 := hshift _ hb2
  have hdx2 : Lincs.refinePass (Pipeline.lincsSetup cfg)
        (Lincs.mainPass (Pipeline.lincsSetup cfg) (Pipeline.integratedX cfg)) c.a
      - Lincs.refinePass (Pipeline.lincsSetup cfg)
        (Lincs.mainPass (Pipeline.lincsSetup cfg) (Pipeline.integratedX cfg)) c.b
      = (Pipeline.integratedX cfg c.a - Pipeline.integratedX cfg c.b)
        - ((V3.dot (Lincs.dirU (Pipeline.lincsSetup cfg) 0)
              (pbcDx cfg.pbc (Pipeline.integratedX cfg c.a - Pipeline.integratedX cfg c.b))
            - c.target)
          + (c.target - Real.sqrt (c.target ^ 2
              - V3.normSq (pbcDx cfg.pbc (Pipeline.integratedX cfg c.a
                  - Pipeline.integratedX cfg c.b)
                - V3.dot (Lincs.dirU (Pipeline.lincsSetup cfg) 0)
                    (pbcDx cfg.pbc (Pipeline.integratedX cfg c.a
                      - Pipeline.integratedX cfg c.b))
                  • Lincs.dirU (Pipeline.lincsSetup cfg) 0))))
          • Lincs.dirU (Pipeline.lincsSetup cfg) 0 := by
    have hs2 := singlePass_dx (Pipeline.lincsSetup cfg) c hcL hab
      (Lincs.iterRhs (Pipeline.lincsSetup cfg)
        (Lincs.mainPass (Pipeline.lincsSetup cfg) (Pipeline.integratedX cfg)))
      (Lincs.mainPass (Pipeline.lincsSetup cfg) (Pipeline.integratedX cfg))
    rw [hR0i, hcoefz] at hs2
    show Lincs.mainPass (Pipeline.lincsSetup cfg) (Pipeline.integratedX cfg) c.a
        + Lincs.corrDelta (Pipeline.lincsSetup cfg) _ c.a
        - (Lincs.mainPass (Pipeline.lincsSetup cfg) (Pipeline.integratedX cfg) c.b
          + Lincs.corrDelta (Pipeline.lincsSetup cfg) _ c.b) = _
    rw [hs2, hdx1, add_smul]
    abel
  have hval2 : pbcDx cfg.pbc (Pipeline.integratedX cfg c.a - Pipeline.integratedX cfg c.b)
      - ((V3.dot (Lincs.dirU (Pipeline.lincsSetup cfg) 0)
            (pbcDx cfg.pbc (Pipeline.integratedX cfg c.a - Pipeline.integratedX cfg c.b))
          - c.target)
        + (c.target - Real.sqrt (c.target ^ 2
            - V3.normSq (pbcDx cfg.pbc (Pipeline.integratedX cfg c.a
                - Pipeline.integratedX cfg c.b)
              - V3.dot (Lincs.dirU (Pipeline.lincsSetup cfg) 0)
                  (pbcDx cfg.pbc (Pipeline.integratedX cfg c.a
                    - Pipeline.integratedX cfg c.b))
                • Lincs.dirU (Pipeline.lincsSetup cfg) 0))))
        • Lincs.dirU (Pipeline.lincsSetup cfg) 0
      = Real.sqrt (c.target ^ 2
          - V3.normSq (pbcDx cfg.pbc (Pipeline.integratedX cfg c.a
              - Pipeline.integratedX cfg c.b)
            - V3.dot (Lincs.dirU (Pipeline.lincsSetup cfg) 0)
                (pbcDx cfg.pbc (Pipeline.integratedX cfg c.a
                  - Pipeline.integratedX cfg c.b))
              • Lincs.dirU (Pipeline.lincsSetup cfg) 0))
          • Lincs.dirU (Pipeline.lincsSetup cfg) 0
        + (pbcDx cfg.pbc (Pipeline.integratedX cfg c.a - Pipeline.integratedX cfg c.b)
          - V3.dot (Lincs.dirU (Pipeline.lincsSetup cfg) 0)
              (pbcDx cfg.pbc (Pipeline.integratedX cfg c.a - Pipeline.integratedX cfg c.b))
            • Lincs.dirU (Pipeline.lincsSetup cfg) 0) := by
    rw [add_smul, sub_add_eq_sub_sub, hDval, sub_smul]
    abel
  have hpfr : Lincs.pf (Pipeline.lincsSetup cfg)
      (Lincs.refinePass (Pipeline.lincsSetup cfg)
          (Lincs.mainPass (Pipeline.lincsSetup cfg) (Pipeline.integratedX cfg)) c.a
        - Lincs.refinePass (Pipeline.lincsSetup cfg)
          (Lincs.mainPass (Pipeline.lincsSetup cfg) (Pipeline.integratedX cfg)) c.b)
      = Real.sqrt (c.target ^ 2
          - V3.normSq (pbcDx cfg.pbc (Pipeline.integratedX cfg c.a
              - Pipeline.integratedX cfg c.b)
            - V3.dot (Lincs.dirU (Pipeline.lincsSetup cfg) 0)
                (pbcDx cfg.pbc (Pipeline.integratedX cfg c.a
                  - Pipeline.integratedX cfg c.b))
              • Lincs.dirU (Pipeline.lincsSetup cfg) 0))
          • Lincs.dirU (Pipeline.lincsSetup cfg) 0
        + (pbcDx cfg.pbc (Pipeline.integratedX cfg c.a - Pipeline.integratedX cfg c.b)
          - V3.dot (Lincs.dirU (Pipeline.lincsSetup cfg) 0)
              (pbcDx cfg.pbc (Pipeline.integratedX cfg c.a - Pipeline.integratedX cfg c.b))
            • Lincs.dirU (Pipeline.lincsSetup cfg) 0) := by
    rw [hpf, hdx2, hpf2, hval2]
  have hn2 : V3.normSq (Lincs.pf (Pipeline.lincsSetup cfg)
      (Lincs.refinePass (Pipeline.lincsSetup cfg)
          (Lincs.mainPass (Pipeline.lincsSetup cfg) (Pipeline.integratedX cfg)) c.a
        - Lincs.refinePass (Pipeline.lincsSetup cfg)
          (Lincs.mainPass (Pipeline.lincsSetup cfg) (Pipeline.integratedX cfg)) c.b))
      = c.target ^ 2 := by
    rw [hpfr, normSq_decomp _ _ _ hu1 hperp0, Real.sq_sqrt hsubnn]
    ring
  have hiterz2 : ∀ i < (Pipeline.lincsSetup cfg).cs.length,
      Lincs.iterRhs (Pipeline.lincsSetup cfg)
        (Lincs.refinePass (Pipeline.lincsSetup cfg)
          (Lincs.mainPass (Pipeline.lincsSetup cfg) (Pipeline.integratedX cfg))) i = 0 := by
    intro i hi
    have hi0 : i = 0 := by
      rw [hcL] at hi
      simpa using Nat.lt_one_iff.1 hi
    subst hi0
    rw [iterRhs0 _ c hcL, hn2,
      show 2 * c.target ^ 2 - c.target ^ 2 = c.target ^ 2 from by ring,
      max_eq_right (sq_nonneg _), Real.sqrt_sq hd.le, sub_self, mul_zero]
  obtain ⟨m, hm⟩ : ∃ m, cfg.iters = m + 1 := ⟨cfg.iters - 1, by omega⟩
  have hsolve : Lincs.solve (Pipeline.lincsSetup cfg) (Pipeline.integratedX cfg)
      = Lincs.refinePass (Pipeline.lincsSetup cfg)
          (Lincs.mainPass (Pipeline.lincsSetup cfg) (Pipeline.integratedX cfg)) := by
    show Lincs.refineLoop (Pipeline.lincsSetup cfg) cfg.iters
        (Lincs.mainPass (Pipeline.lincsSetup cfg) (Pipeline.integratedX cfg)) = _
    rw [hm]
    show Lincs.refineLoop (Pipeline.lincsSetup cfg) m
        (Lincs.refinePass (Pipeline.lincsSetup cfg)
          (Lincs.mainPass (Pipeline.lincsSetup cfg) (Pipeline.integratedX cfg))) = _
    exact refineLoop_fixed _ _ (refinePass_of_zero _ _ hiterz2) m
  have hstep : Pipeline.stepX cfg
      = Lincs.solve (Pipeline.lincsSetup cfg) (Pipeline.integratedX cfg) := by
    show Settle.settleAll cfg.mass cfg.triplets
        (Lincs.solve (Pipeline.lincsSetup cfg) (Pipeline.integratedX cfg)) = _
    rw [hts]
    rfl
  have hfinal : V3.rnorm (pbcDx cfg.pbc (Pipeline.stepX cfg c.a - Pipeline.stepX cfg c.b))
      = c.target := by
    rw [hstep, hsolve]
    exact rnorm_eq_of_normSq _ _ hd.le hn2
  exact ⟨hfinal, by rw [hfinal, sub_self, abs_zero]; exact htol⟩

/-- A single constraint with target 3 whose unconstrained displacement has a
huge transverse component (one step of velocity 400 in y). -/
noncomputable def cfgC2 : StepInputs :=
  { cfg0 with cs := [⟨0, 1, 3, 1 / 2⟩],
              x := fun n => if n = 0 then 0 else ⟨3, 0, 0⟩,
              v := fun n => if n = 1 then ⟨0, 400, 0⟩ else 0 }

/-- Counterexample to C2 as stated: with expansion order 4 and one
refinement iteration, the step leaves the constrained pair at distance 400
instead of the target 3, far beyond the configured tolerance. -/
theorem claim2_counterexample :
    cfgC2.order = 4 ∧ cfgC2.iters = 1 ∧ cfgC2.cs = [⟨0, 1, 3, 1 / 2⟩]
      ∧ ¬ |V3.rnorm (pbcDx cfgC2.pbc (Pipeline.stepX cfgC2 0 - Pipeline.stepX cfgC2 1))
            - (3 : ℝ)| < cfgC2.tol := by
  refine ⟨rfl, rfl, rfl, ?_⟩
  have hab : (⟨0, 1, 3, (1 : ℝ) / 2⟩ : DistConstraint).a
      ≠ (⟨0, 1, 3, (1 : ℝ) / 2⟩ : DistConstraint).b := by
    show (0 : ℕ) ≠ 1
    norm_num
  have hcL : (Pipeline.lincsSetup cfgC2).cs = [⟨0, 1, 3, (1 : ℝ) / 2⟩] := rfl
  have hpf : ∀ w : V3 ℝ, Lincs.pf (Pipeline.lincsSetup cfgC2) w = w := fun _ => rfl
  have hxI0 : Pipeline.integratedX cfgC2 0 = 0 := by
    ext <;> simp [Pipeline.integratedX, Pipeline.integratedV, Pipeline.tempScale,
      cfgC2, cfg0]
  have hxI1 : Pipeline.integratedX cfgC2 1 = ⟨3, 400, 0⟩ := by
    ext <;> simp [Pipeline.integratedX, Pipeline.integratedV, Pipeline.tempScale,
      cfgC2, cfg0]
  have hdx : Pipeline.integratedX cfgC2 0 - Pipeline.integratedX cfgC2 1
      = (⟨-3, -400, 0⟩ : V3 ℝ) := by
    rw [hxI0, hxI1]
    ext <;> norm_num
  have hu : Lincs.dirU (Pipeline.lincsSetup cfgC2) 0 = (⟨-1, 0, 0⟩ : V3 ℝ) := by
    rw [dirU0 _ ⟨0, 1, 3, (1 : ℝ) / 2⟩ hcL, hpf]
    have hxd : (Pipeline.lincsSetup cfgC2).xref (0 : ℕ)
        - (Pipeline.lincsSetup cfgC2).xref (1 : ℕ) = (⟨-3, 0, 0⟩ : V3 ℝ) := by
      show cfgC2.x 0 - cfgC2.x 1 = _
      ext <;> simp [cfgC2, cfg0]
    rw [show ((⟨0, 1, 3, (1 : ℝ) / 2⟩ : DistConstraint).a : ℕ) = 0 from rfl,
      show ((⟨0, 1, 3, (1 : ℝ) / 2⟩ : DistConstraint).b : ℕ) = 1 from rfl, hxd]
    have hrn : V3.rnorm (⟨-3, 0, 0⟩ : V3 ℝ) = 3 := by
      refine rnorm_eq_of_normSq _ _ (by norm_num) ?_
      norm_num [V3.normSq, V3.dot]
    rw [V3.normalize, hrn]
    ext <;> norm_num
  have hS : Lincs.sFac (Pipeline.lincsSetup cfgC2) 0
      * Lincs.sFac (Pipeline.lincsSetup cfgC2) 0 = 1 / 2 := by
    rw [sFac0 _ ⟨0, 1, 3, (1 : ℝ) / 2⟩ hcL]
    exact Real.mul_self_sqrt (by norm_num)
  have hR0m : Lincs.mainRhs (Pipeline.lincsSetup cfgC2) (Pipeline.integratedX cfgC2) 0
      = 0 := by
    rw [mainRhs0 _ ⟨0, 1, 3, (1 : ℝ) / 2⟩ hcL, hpf,
      show ((⟨0, 1, 3, (1 : ℝ) / 2⟩ : DistConstraint).a : ℕ) = 0 from rfl,
      show ((⟨0, 1, 3, (1 : ℝ) / 2⟩ : DistConstraint).b : ℕ) = 1 from rfl,
      show (⟨0, 1, 3, (1 : ℝ) / 2⟩ : DistConstraint).target = 3 from rfl,
      hdx, hu]
    norm_num [V3.dot]
  have hp1a : Lincs.mainPass (Pipeline.lincsSetup cfgC2) (Pipeline.integratedX cfgC2) 0
      = Pipeline.integratedX cfgC2 0 := by
    have h := singlePass_a (Pipeline.lincsSetup cfgC2) ⟨0, 1, 3, (1 : ℝ) / 2⟩ hcL hab
      (Lincs.mainRhs (Pipeline.lincsSetup cfgC2) (Pipeline.integratedX cfgC2))
      (Pipeline.integratedX cfgC2)
    rw [hR0m, mul_zero, neg_zero, zero_smul, add_zero] at h
    exact h
  have hp1b : Lincs.mainPass (Pipeline.lincsSetup cfgC2) (Pipeline.integratedX cfgC2) 1
      = Pipeline.integratedX cfgC2 1 := by
    have h := singlePass_b (Pipeline.lincsSetup cfgC2) ⟨0, 1, 3, (1 : ℝ) / 2⟩ hcL hab
      (Lincs.mainRhs (Pipeline.lincsSetup cfgC2) (Pipeline.integratedX cfgC2))
      (Pipeline.integratedX cfgC2)
    rw [hR0m, mul_zero, zero_smul, add_zero] at h
    exact h
  have hdx1 : Lincs.mainPass (Pipeline.lincsSetup cfgC2) (Pipeline.integratedX cfgC2) 0
      - Lincs.mainPass (Pipeline.lincsSetup cfgC2) (Pipeline.integratedX cfgC2) 1
      = (⟨-3, -400, 0⟩ : V3 ℝ) := by
    rw [hp1a, hp1b, hdx]
  have hR0i : Lincs.iterRhs (Pipeline.lincsSetup cfgC2)
      (Lincs.mainPass (Pipeline.lincsSetup cfgC2) (Pipeline.integratedX cfgC2)) 0
      = Lincs.sFac (Pipeline.lincsSetup cfgC2) 0 * 3 := by
    rw [iterRhs0 _ ⟨0, 1, 3, (1 : ℝ) / 2⟩ hcL, hpf,
      show ((⟨0, 1, 3, (1 : ℝ) / 2⟩ : DistConstraint).a : ℕ) = 0 from rfl,
      show ((⟨0, 1, 3, (1 : ℝ) / 2⟩ : DistConstraint).b : ℕ) = 1 from rfl,
      show (⟨0, 1, 3, (1 : ℝ) / 2⟩ : DistConstraint).target = 3 from rfl,
      hdx1]
    rw [show V3.normSq (⟨-3, -400, 0⟩ : V3 ℝ) = 160009 from by norm_num [V3.normSq, V3.dot],
      show (2 : ℝ) * 3 ^ 2 - 160009 = -159991 from by norm_num,
      show max (0 : ℝ) (-159991) = 0 from max_eq_left (by norm_num),
      Real.sqrt_zero]
    norm_num
  have hdx2 : Lincs.refinePass (Pipeline.lincsSetup cfgC2)
        (Lincs.mainPass (Pipeline.lincsSetup cfgC2) (Pipeline.integratedX cfgC2)) 0
      - Lincs.refinePass (Pipeline.lincsSetup cfgC2)
        (Lincs.mainPass (Pipeline.lincsSetup cfgC2) (Pipeline.integratedX cfgC2)) 1
      = (⟨0, -400, 0⟩ : V3 ℝ) := by
    have hs := singlePass_dx (Pipeline.lincsSetup cfgC2) ⟨0, 1, 3, (1 : ℝ) / 2⟩ hcL hab
      (Lincs.iterRhs (Pipeline.lincsSetup cfgC2)
        (Lincs.mainPass (Pipeline.lincsSetup cfgC2) (Pipeline.integratedX cfgC2)))
      (Lincs.mainPass (Pipeline.lincsSetup cfgC2) (Pipeline.integratedX cfgC2))
    rw [hR0i,
      show ((⟨0, 1, 3, (1 : ℝ) / 2⟩ : DistConstraint).a : ℕ) = 0 from rfl,
      show ((⟨0, 1, 3, (1 : ℝ) / 2⟩ : DistConstraint).b : ℕ) = 1 from rfl] at hs
    rw [show (Pipeline.lincsSetup cfgC2).invm 0 = 1 from rfl,
      show (Pipeline.lincsSetup cfgC2).invm 1 = 1 from rfl] at hs
    rw [show ((1 : ℝ) + 1) * (Lincs.sFac (Pipeline.lincsSetup cfgC2) 0
          * (Lincs.sFac (Pipeline.lincsSetup cfgC2) 0 * 3)) = 3 from by
        linear_combination 6 * hS] at hs
    show Lincs.mainPass (Pipeline.lincsSetup cfgC2) (Pipeline.integratedX cfgC2) 0
        + Lincs.corrDelta (Pipeline.lincsSetup cfgC2) _ 0
        - (Lincs.mainPass (Pipeline.lincsSetup cfgC2) (Pipeline.integratedX cfgC2) 1
          + Lincs.corrDelta (Pipeline.lincsSetup cfgC2) _ 1) = _
    rw [hs, hdx1, hu]
    ext <;> norm_num
  have hstep : Pipeline.stepX cfgC2 0 - Pipeline.stepX cfgC2 1
      = (⟨0, -400, 0⟩ : V3 ℝ) := hdx2
  have hrn : V3.rnorm (pbcDx cfgC2.pbc (Pipeline.stepX cfgC2 0 - Pipeline.stepX cfgC2 1))
      = 400 := by
    show V3.rnorm (Pipeline.stepX cfgC2 0 - Pipeline.stepX cfgC2 1) = 400
    rw [hstep]
    refine rnorm_eq_of_normSq _ _ (by norm_num) ?_
    norm_num [V3.normSq, V3.dot]
  rw [hrn, show cfgC2.tol = (1 : ℝ) / 10000 from rfl]
  norm_num

/-- Orthogonal box of length 100 along each axis, used by the amended-C2
witness. -/
noncomputable def boxW2 : PbcAiuc ℝ :=
  { orthogonal := true, aX := 100, bX := 0, bY := 100, cX := 0, cY := 0, cZ := 100 }

/-- A single satisfied-direction constraint in a periodic 100-box with the
two atoms more than one box length apart: the minimum image of the pair
displacement meets the target. -/
noncomputable def cfgW2 : StepInputs :=
  { cfg0 with cs := [⟨0, 1, 5, 1 / 2⟩],
              x := fun n => if n = 0 then 0 else ⟨105, 0, 0⟩,
              pbc := some boxW2 }

/-- Witness for the amended C2 at a concrete periodic configuration: an
orthogonal 100-box, one constraint of target 5, the atoms 105 apart so the
minimum imaging genuinely wraps the displacement. -/
theorem claim2_single_constraint_exact_witness :
    V3.rnorm (pbcDx cfgW2.pbc (Pipeline.stepX cfgW2 0 - Pipeline.stepX cfgW2 1)) = 5
      ∧ |V3.rnorm (pbcDx cfgW2.pbc (Pipeline.stepX cfgW2 0 - Pipeline.stepX cfgW2 1))
          - 5| < cfgW2.tol := by
  have hround : round ((-105 : ℝ) / 100) = -1 := by
    rw [round_eq]
    norm_num
  have hro : boxW2.orthoReduce (⟨-105, 0, 0⟩ : V3 ℝ) = (⟨-5, 0, 0⟩ : V3 ℝ) := by
    ext
    · show (-105 : ℝ) - 100 * ((round ((-105 : ℝ) / 100) : ℤ) : ℝ) = -5
      rw [hround]
      norm_num
    · show (0 : ℝ) - 100 * ((round ((0 : ℝ) / 100) : ℤ) : ℝ) = 0
      norm_num
    · show (0 : ℝ) - 100 * ((round ((0 : ℝ) / 100) : ℤ) : ℝ) = 0
      norm_num
  have hminB : pbcDx (some boxW2) (⟨-105, 0, 0⟩ : V3 ℝ) = (⟨-5, 0, 0⟩ : V3 ℝ) := by
    show boxW2.orthoReduce (⟨-105, 0, 0⟩ : V3 ℝ) = (⟨-5, 0, 0⟩ : V3 ℝ)
    exact hro
  have hxw : cfgW2.x 0 - cfgW2.x 1 = (⟨-105, 0, 0⟩ : V3 ℝ) := by
    ext <;> simp [cfgW2, cfg0]
  have hxI0 : Pipeline.integratedX cfgW2 0 = 0 := by
    ext <;> simp [Pipeline.integratedX, Pipeline.integratedV, Pipeline.tempScale,
      cfgW2, cfg0]
  have hxI1 : Pipeline.integratedX cfgW2 1 = (⟨105, 0, 0⟩ : V3 ℝ) := by
    ext <;> simp [Pipeline.integratedX, Pipeline.integratedV, Pipeline.tempScale,
      cfgW2, cfg0]
  have hdxI : Pipeline.integratedX cfgW2 0 - Pipeline.integratedX cfgW2 1
      = (⟨-105, 0, 0⟩ : V3 ℝ) := by
    rw [hxI0, hxI1]
    ext <;> norm_num
  have hD : pbcDx cfgW2.pbc (Pipeline.integratedX cfgW2 0 - Pipeline.integratedX cfgW2 1)
      = (⟨-5, 0, 0⟩ : V3 ℝ) := by
    rw [hdxI]
    exact hminB
  have hu : Lincs.dirU (Pipeline.lincsSetup cfgW2) 0 = (⟨-1, 0, 0⟩ : V3 ℝ) := by
    rw [dirU0 _ ⟨0, 1, 5, (1 : ℝ) / 2⟩ rfl]
    rw [show ((⟨0, 1, 5, (1 : ℝ) / 2⟩ : DistConstraint).a : ℕ) = 0 from rfl,
      show ((⟨0, 1, 5, (1 : ℝ) / 2⟩ : DistConstraint).b : ℕ) = 1 from rfl]
    have hxd : Lincs.pf (Pipeline.lincsSetup cfgW2)
        ((Pipeline.lincsSetup cfgW2).xref (0 : ℕ) - (Pipeline.lincsSetup cfgW2).xref (1 : ℕ))
        = (⟨-5, 0, 0⟩ : V3 ℝ) := by
      show pbcDx cfgW2.pbc (cfgW2.x 0 - cfgW2.x 1) = (⟨-5, 0, 0⟩ : V3 ℝ)
      rw [hxw]
      exact hminB
    rw [hxd]
    have hrn : V3.rnorm (⟨-5, 0, 0⟩ : V3 ℝ) = 5 := by
      refine rnorm_eq_of_normSq _ _ (by norm_num) ?_
      norm_num [V3.normSq, V3.dot]
    rw [V3.normalize, hrn]
    ext <;> norm_num
  have hcore := orthoShiftConsistent boxW2 rfl
    (by show (0 : ℝ) < 100; norm_num)
    (by show (0 : ℝ) < 100; norm_num)
    (by show (0 : ℝ) < 100; norm_num)
    (⟨-105, 0, 0⟩ : V3 ℝ) (⟨-1, 0, 0⟩ : V3 ℝ) 5
    (by rw [hro]; show |(-5 : ℝ)| + 5 * |(-1 : ℝ)| < 100 / 2; norm_num)
    (by rw [hro]; show |(0 : ℝ)| + 5 * |(0 : ℝ)| < 100 / 2; norm_num)
    (by rw [hro]; show |(0 : ℝ)| + 5 * |(0 : ℝ)| < 100 / 2; norm_num)
  have hshiftW : ∀ t : ℝ,
      |t| ≤ |V3.dot (Lincs.dirU (Pipeline.lincsSetup cfgW2) 0)
            (pbcDx cfgW2.pbc (Pipeline.integratedX cfgW2 0 - Pipeline.integratedX cfgW2 1))
          - (5 : ℝ)| + 5 →
      pbcDx cfgW2.pbc ((Pipeline.integratedX cfgW2 0 - Pipeline.integratedX cfgW2 1)
          - t • Lincs.dirU (Pipeline.lincsSetup cfgW2) 0)
        = pbcDx cfgW2.pbc (Pipeline.integratedX cfgW2 0 - Pipeline.integratedX cfgW2 1)
          - t • Lincs.dirU (Pipeline.lincsSetup cfgW2) 0 := by
    intro t ht
    have h5 : |t| ≤ 5 := by
      rw [hu, hD] at ht
      rw [show V3.dot (⟨-1, 0, 0⟩ : V3 ℝ) (⟨-5, 0, 0⟩ : V3 ℝ) = 5 from by
        norm_num [V3.dot]] at ht
      simpa using ht
    rw [hdxI, hu, show cfgW2.pbc = some boxW2 from rfl, hcore t h5]
  exact claim2_single_constraint_exact cfgW2 ⟨0, 1, 5, 1 / 2⟩ rfl rfl
    (by show (0 : ℕ) ≠ 1; norm_num)
    (by show (4 : ℕ) ≤ 4; norm_num) (by show (1 : ℕ) ≤ 1; norm_num)
    (by show (0 : ℝ) < 5; norm_num) (by show (0 : ℝ) < 1 / 10000; norm_num)
    (by show (0 : ℝ) < 1 + 1; norm_num)
    (by show (1 : ℝ) / 2 = ((1 : ℝ) + 1)⁻¹; norm_num)
    (by show V3.normSq (pbcDx cfgW2.pbc (cfgW2.x 0 - cfgW2.x 1)) ≠ 0
        rw [hxw, show cfgW2.pbc = some boxW2 from rfl, hminB]
        norm_num [V3.normSq, V3.dot])
    (by rw [show ((⟨0, 1, 5, (1 : ℝ) / 2⟩ : DistConstraint).a : ℕ) = 0 from rfl,
          show ((⟨0, 1, 5, (1 : ℝ) / 2⟩ : DistConstraint).b : ℕ) = 1 from rfl,
          show (⟨0, 1, 5, (1 : ℝ) / 2⟩ : DistConstraint).target = 5 from rfl,
          hD, hu]
        have hz : (⟨-5, 0, 0⟩ : V3 ℝ)
            - V3.dot (⟨-1, 0, 0⟩ : V3 ℝ) (⟨-5, 0, 0⟩ : V3 ℝ) • (⟨-1, 0, 0⟩ : V3 ℝ)
            = 0 := by
          ext <;> norm_num [V3.dot]
        rw [hz]
        norm_num [V3.normSq, V3.dot])
    (by rw [show ((⟨0, 1, 5, (1 : ℝ) / 2⟩ : DistConstraint).a : ℕ) = 0 from rfl,
          show ((⟨0, 1, 5, (1 : ℝ) / 2⟩ : DistConstraint).b : ℕ) = 1 from rfl,
          show (⟨0, 1, 5, (1 : ℝ) / 2⟩ : DistConstraint).target = 5 from rfl]
        exact hshiftW)

/-- Amended C6: for a single pairwise constraint whose pre-correction pair
displacement is parallel to its reference direction (and consistent
mass/inverse-mass tables), the accumulated constraint virial is symmetric;
with a transverse pre-correction displacement the spec's accumulation
formula produces an asymmetric tensor (see the counterexample). -/
theorem claim6_parallel_virial_symm (cfg : StepInputs) (c : DistConstraint) (g : ℝ)
    (hcs : cfg.cs = [c]) (hts : cfg.triplets = [])
    (hab : c.a ≠ c.b) (hna : c.a < cfg.nAtoms) (hnb : c.b < cfg.nAtoms)
    (hmi : ∀ n, cfg.mass n * cfg.invMass n = 1)
    (hpar : Pipeline.integratedX cfg c.a - Pipeline.integratedX cfg c.b
        = g • Lincs.dirU (Pipeline.lincsSetup cfg) 0) :
    M3.IsSymm (Pipeline.constraintVirial cfg) := by
  obtain ⟨t, ht⟩ := solve_shape (Pipeline.lincsSetup cfg) c hcs hab
    (Pipeline.integratedX cfg)
  have hstep : Pipeline.stepX cfg
      = pairShape (Pipeline.lincsSetup cfg) c (Pipeline.integratedX cfg) t := by
    show Settle.settleAll cfg.mass cfg.triplets
        (Lincs.solve (Pipeline.lincsSetup cfg) (Pipeline.integratedX cfg)) = _
    rw [hts]
    exact ht
  have hda : Pipeline.stepX cfg c.a - Pipeline.integratedX cfg c.a
      = (-(cfg.invMass c.a * t)) • Lincs.dirU (Pipeline.lincsSetup cfg) 0 := by
    rw [hstep]
    simp only [pairShape, eq_self_iff_true, if_true]
    exact add_sub_cancel_left _ _
  have hdb : Pipeline.stepX cfg c.b - Pipeline.integratedX cfg c.b
      = (cfg.invMass c.b * t) • Lincs.dirU (Pipeline.lincsSetup cfg) 0 := by
    rw [hstep]
    simp only [pairShape, if_neg (Ne.symm hab), eq_self_iff_true, if_true]
    exact add_sub_cancel_left _ _
  have hdother : ∀ i, i ≠ c.a → i ≠ c.b →
      Pipeline.stepX cfg i - Pipeline.integratedX cfg i = 0 := by
    intro i hia hib
    rw [hstep]
    simp only [pairShape, if_neg hia, if_neg hib]
    exact sub_self _
  have hterm : ∀ i,
      cfg.mass i • M3.outer (Pipeline.stepX cfg i - Pipeline.integratedX cfg i)
          (Pipeline.integratedX cfg i)
        = (if i = c.a then
             cfg.mass c.a • M3.outer ((-(cfg.invMass c.a * t))
                 • Lincs.dirU (Pipeline.lincsSetup cfg) 0) (Pipeline.integratedX cfg c.a)
           else 0)
          + (if i = c.b then
               cfg.mass c.b • M3.outer ((cfg.invMass c.b * t)
                   • Lincs.dirU (Pipeline.lincsSetup cfg) 0) (Pipeline.integratedX cfg c.b)
             else 0) := by
    intro i
    by_cases hia : i = c.a
    · subst hia
      rw [if_pos rfl, if_neg hab, hda, add_zero]
    · by_cases hib : i = c.b
      · subst hib
        rw [if_neg hia, if_pos rfl, hdb, zero_add]
      · rw [if_neg hia, if_neg hib, hdother i hia hib]
        have houter : M3.outer (0 : V3 ℝ) (Pipeline.integratedX cfg i) = 0 := by
          ext <;> exact zero_mul _
        rw [houter]
        ext <;> simp
  have hsum : (∑ i ∈ Finset.range cfg.nAtoms,
      cfg.mass i • M3.outer (Pipeline.stepX cfg i - Pipeline.integratedX cfg i)
        (Pipeline.integratedX cfg i))
      = cfg.mass c.a • M3.outer ((-(cfg.invMass c.a * t))
            • Lincs.dirU (Pipeline.lincsSetup cfg) 0) (Pipeline.integratedX cfg c.a)
        + cfg.mass c.b • M3.outer ((cfg.invMass c.b * t)
            • Lincs.dirU (Pipeline.lincsSetup cfg) 0) (Pipeline.integratedX cfg c.b) := by
    rw [Finset.sum_congr rfl fun i _ => hterm i, Finset.sum_add_distrib,
      Finset.sum_ite_eq' (Finset.range cfg.nAtoms) c.a,
      Finset.sum_ite_eq' (Finset.range cfg.nAtoms) c.b,
      if_pos (Finset.mem_range.2 hna), if_pos (Finset.mem_range.2 hnb)]
  show M3.IsSymm (((-1 / 2) / cfg.dt ^ 2)
      • ∑ i ∈ Finset.range cfg.nAtoms,
          cfg.mass i • M3.outer (Pipeline.stepX cfg i - Pipeline.integratedX cfg i)
            (Pipeline.integratedX cfg i))
  rw [hsum, outer_smul_left, outer_smul_left, m3_smul_smul, m3_smul_smul,
    show cfg.mass c.a * -(cfg.invMass c.a * t) = -t from by
      linear_combination (-t) * hmi c.a,
    show cfg.mass c.b * (cfg.invMass c.b * t) = t from by
      linear_combination t * hmi c.b,
    show Pipeline.integratedX cfg c.b
        = Pipeline.integratedX cfg c.a - g • Lincs.dirU (Pipeline.lincsSetup cfg) 0 from by
      rw [← hpar]; abel]
  exact outer_pair_symm _ _ t g _

/-- Witness for the amended C6 at the parallel-displacement
configuration. -/
theorem claim6_parallel_virial_symm_witness :
    M3.IsSymm (Pipeline.constraintVirial cfg8) := by
  have hxI0 : Pipeline.integratedX cfg8 0 = 0 := by
    ext <;> simp [Pipeline.integratedX, Pipeline.integratedV, Pipeline.tempScale,
      cfg8, cfg0]
  have hxI1 : Pipeline.integratedX cfg8 1 = ⟨5, 0, 0⟩ := by
    ext <;> simp [Pipeline.integratedX, Pipeline.integratedV, Pipeline.tempScale,
      cfg8, cfg0]
  have hu : Lincs.dirU (Pipeline.lincsSetup cfg8) 0 = (⟨-1, 0, 0⟩ : V3 ℝ) := by
    rw [dirU0 _ ⟨0, 1, 5, (1 : ℝ) / 2⟩ rfl]
    rw [show ((⟨0, 1, 5, (1 : ℝ) / 2⟩ : DistConstraint).a : ℕ) = 0 from rfl,
      show ((⟨0, 1, 5, (1 : ℝ) / 2⟩ : DistConstraint).b : ℕ) = 1 from rfl]
    have hxd : Lincs.pf (Pipeline.lincsSetup cfg8)
        ((Pipeline.lincsSetup cfg8).xref (0 : ℕ)
          - (Pipeline.lincsSetup cfg8).xref (1 : ℕ)) = (⟨-5, 0, 0⟩ : V3 ℝ) := by
      show cfg8.x 0 - cfg8.x 1 = _
      ext <;> simp [cfg8, cfg0]
    rw [hxd]
    have hrn : V3.rnorm (⟨-5, 0, 0⟩ : V3 ℝ) = 5 := by
      refine rnorm_eq_of_normSq _ _ (by norm_num) ?_
      norm_num [V3.normSq, V3.dot]
    rw [V3.normalize, hrn]
    ext <;> norm_num
  refine claim6_parallel_virial_symm cfg8 ⟨0, 1, 5, 1 / 2⟩ 5 rfl rfl
    (by show (0 : ℕ) ≠ 1; norm_num)
    (by show (0 : ℕ) < 2; norm_num) (by show (1 : ℕ) < 2; norm_num)
    (fun n => by show (1 : ℝ) * 1 = 1; norm_num) ?_
  rw [show ((⟨0, 1, 5, (1 : ℝ) / 2⟩ : DistConstraint).a : ℕ) = 0 from rfl,
    show ((⟨0, 1, 5, (1 : ℝ) / 2⟩ : DistConstraint).b : ℕ) = 1 from rfl,
    hxI0, hxI1, hu]
  ext <;> norm_num

/-- A single constraint whose unconstrained displacement has a transverse
component of 4 against a target of 5: the refinement pass produces a genuine
correction, so the accumulated tensor picks up an asymmetric outer
product. -/
noncomputable def cfgC6 : StepInputs :=
  { cfg0 with cs := [⟨0, 1, 5, 1 / 2⟩],
              x := fun n => if n = 0 then 0 else ⟨5, 0, 0⟩,
              v := fun n => if n = 1 then ⟨0, 4, 0⟩ else 0,
              computeVirial := true }

/-- Counterexample to C6 as stated: the step's accumulated virial tensor is
not symmetric for this constraint configuration. -/
theorem claim6_counterexample :
    ¬ M3.IsSymm ((Pipeline.fullStep cfgC6).virial) := by
  have hab : (⟨0, 1, 5, (1 : ℝ) / 2⟩ : DistConstraint).a
      ≠ (⟨0, 1, 5, (1 : ℝ) / 2⟩ : DistConstraint).b := by
    show (0 : ℕ) ≠ 1
    norm_num
  have hcL : (Pipeline.lincsSetup cfgC6).cs = [⟨0, 1, 5, (1 : ℝ) / 2⟩] := rfl
  have hpf : ∀ w : V3 ℝ, Lincs.pf (Pipeline.lincsSetup cfgC6) w = w := fun _ => rfl
  have hxI0 : Pipeline.integratedX cfgC6 0 = 0 := by
    ext <;> simp [Pipeline.integratedX, Pipeline.integratedV, Pipeline.tempScale,
      cfgC6, cfg0]
  have hxI1 : Pipeline.integratedX cfgC6 1 = ⟨5, 4, 0⟩ := by
    ext <;> simp [Pipeline.integratedX, Pipeline.integratedV, Pipeline.tempScale,
      cfgC6, cfg0]
  have hdx : Pipeline.integratedX cfgC6 0 - Pipeline.integratedX cfgC6 1
      = (⟨-5, -4, 0⟩ : V3 ℝ) := by
    rw [hxI0, hxI1]
    ext <;> norm_num
  have hu : Lincs.dirU (Pipeline.lincsSetup cfgC6) 0 = (⟨-1, 0, 0⟩ : V3 ℝ) := by
    rw [dirU0 _ ⟨0, 1, 5, (1 : ℝ) / 2⟩ hcL, hpf]
    rw [show ((⟨0, 1, 5, (1 : ℝ) / 2⟩ : DistConstraint).a : ℕ) = 0 from rfl,
      show ((⟨0, 1, 5, (1 : ℝ) / 2⟩ : DistConstraint).b : ℕ) = 1 from rfl]
    have hxd : (Pipeline.lincsSetup cfgC6).xref (0 : ℕ)
        - (Pipeline.lincsSetup cfgC6).xref (1 : ℕ) = (⟨-5, 0, 0⟩ : V3 ℝ) := by
      show cfgC6.x 0 - cfgC6.x 1 = _
      ext <;> simp [cfgC6, cfg0]
    rw [hxd]
    have hrn : V3.rnorm (⟨-5, 0, 0⟩ : V3 ℝ) = 5 := by
      refine rnorm_eq_of_normSq _ _ (by norm_num) ?_
      norm_num [V3.normSq, V3.dot]
    rw [V3.normalize, hrn]
    ext <;> norm_num
  have hS : Lincs.sFac (Pipeline.lincsSetup cfgC6) 0
      * Lincs.sFac (Pipeline.lincsSetup cfgC6) 0 = 1 / 2 := by
    rw [sFac0 _ ⟨0, 1, 5, (1 : ℝ) / 2⟩ hcL]
    exact Real.mul_self_sqrt (by norm_num)
  have hR0m : Lincs.mainRhs (Pipeline.lincsSetup cfgC6) (Pipeline.integratedX cfgC6) 0
      = 0 := by
    rw [mainRhs0 _ ⟨0, 1, 5, (1 : ℝ) / 2⟩ hcL, hpf,
      show ((⟨0, 1, 5, (1 : ℝ) / 2⟩ : DistConstraint).a : ℕ) = 0 from rfl,
      show ((⟨0, 1, 5, (1 : ℝ) / 2⟩ : DistConstraint).b : ℕ) = 1 from rfl,
      show (⟨0, 1, 5, (1 : ℝ) / 2⟩ : DistConstraint).target = 5 from rfl,
      hdx, hu]
    norm_num [V3.dot]
  have hp1a : Lincs.mainPass (Pipeline.lincsSetup cfgC6) (Pipeline.integratedX cfgC6) 0
      = Pipeline.integratedX cfgC6 0 := by
    have h := singlePass_a (Pipeline.lincsSetup cfgC6) ⟨0, 1, 5, (1 : ℝ) / 2⟩ hcL hab
      (Lincs.mainRhs (Pipeline.lincsSetup cfgC6) (Pipeline.integratedX cfgC6))
      (Pipeline.integratedX cfgC6)
    rw [hR0m, mul_zero, neg_zero, zero_smul, add_zero] at h
    exact h
  have hp1b : Lincs.mainPass (Pipeline.lincsSetup cfgC6) (Pipeline.integratedX cfgC6) 1
      = Pipeline.integratedX cfgC6 1 := by
    have h := singlePass_b (Pipeline.lincsSetup cfgC6) ⟨0, 1, 5, (1 : ℝ) / 2⟩ hcL hab
      (Lincs.mainRhs (Pipeline.lincsSetup cfgC6) (Pipeline.integratedX cfgC6))
      (Pipeline.integratedX cfgC6)
    rw [hR0m, mul_zero, zero_smul, add_zero] at h
    exact h
  have hdx1 : Lincs.mainPass (Pipeline.lincsSetup cfgC6) (Pipeline.integratedX cfgC6) 0
      - Lincs.mainPass (Pipeline.lincsSetup cfgC6) (Pipeline.integratedX cfgC6) 1
      = (⟨-5, -4, 0⟩ : V3 ℝ) := by
    rw [hp1a, hp1b, hdx]
  have hR0i : Lincs.iterRhs (Pipeline.lincsSetup cfgC6)
      (Lincs.mainPass (Pipeline.lincsSetup cfgC6) (Pipeline.integratedX cfgC6)) 0
      = Lincs.sFac (Pipeline.lincsSetup cfgC6) 0 * 2 := by
    rw [iterRhs0 _ ⟨0, 1, 5, (1 : ℝ) / 2⟩ hcL, hpf,
      show ((⟨0, 1, 5, (1 : ℝ) / 2⟩ : DistConstraint).a : ℕ) = 0 from rfl,
      show ((⟨0, 1, 5, (1 : ℝ) / 2⟩ : DistConstraint).b : ℕ) = 1 from rfl,
      show (⟨0, 1, 5, (1 : ℝ) / 2⟩ : DistConstraint).target = 5 from rfl,
      hdx1]
    rw [show V3.normSq (⟨-5, -4, 0⟩ : V3 ℝ) = 41 from by norm_num [V3.normSq, V3.dot],
      show (2 : ℝ) * 5 ^ 2 - 41 = 9 from by norm_num,
      show max (0 : ℝ) 9 = 9 from max_eq_right (by norm_num),
      show (9 : ℝ) = 3 ^ 2 from by norm_num, Real.sqrt_sq (by norm_num : (0:ℝ) ≤ 3)]
    norm_num
  have hsx0 : Pipeline.stepX cfgC6 0 = (⟨1, 0, 0⟩ : V3 ℝ) := by
    calc Pipeline.stepX cfgC6 0
        = Lincs.mainPass (Pipeline.lincsSetup cfgC6) (Pipeline.integratedX cfgC6)
            (⟨0, 1, 5, (1 : ℝ) / 2⟩ : DistConstraint).a
          + (-((Pipeline.lincsSetup cfgC6).invm (⟨0, 1, 5, (1 : ℝ) / 2⟩ : DistConstraint).a
                * Lincs.sFac (Pipeline.lincsSetup cfgC6) 0
                * Lincs.iterRhs (Pipeline.lincsSetup cfgC6)
                    (Lincs.mainPass (Pipeline.lincsSetup cfgC6)
                      (Pipeline.integratedX cfgC6)) 0))
            • Lincs.dirU (Pipeline.lincsSetup cfgC6) 0 :=
          singlePass_a (Pipeline.lincsSetup cfgC6) ⟨0, 1, 5, (1 : ℝ) / 2⟩ hcL hab
            (Lincs.iterRhs (Pipeline.lincsSetup cfgC6)
              (Lincs.mainPass (Pipeline.lincsSetup cfgC6) (Pipeline.integratedX cfgC6)))
            (Lincs.mainPass (Pipeline.lincsSetup cfgC6) (Pipeline.integratedX cfgC6))
      _ = (⟨1, 0, 0⟩ : V3 ℝ) := by
          rw [show ((⟨0, 1, 5, (1 : ℝ) / 2⟩ : DistConstraint).a : ℕ) = 0 from rfl,
            hp1a, hxI0, hR0i, hu,
            show (Pipeline.lincsSetup cfgC6).invm 0 = 1 from rfl,
            show -((1 : ℝ) * Lincs.sFac (Pipeline.lincsSetup cfgC6) 0
                * (Lincs.sFac (Pipeline.lincsSetup cfgC6) 0 * 2)) = -1 from by
              linear_combination (-2) * hS]
          ext <;> norm_num
  have hsx1 : Pipeline.stepX cfgC6 1 = (⟨4, 4, 0⟩ : V3 ℝ) := by
    calc Pipeline.stepX cfgC6 1
        = Lincs.mainPass (Pipeline.lincsSetup cfgC6) (Pipeline.integratedX cfgC6)
            (⟨0, 1, 5, (1 : ℝ) / 2⟩ : DistConstraint).b
          + ((Pipeline.lincsSetup cfgC6).invm (⟨0, 1, 5, (1 : ℝ) / 2⟩ : DistConstraint).b
                * Lincs.sFac (Pipeline.lincsSetup cfgC6) 0
                * Lincs.iterRhs (Pipeline.lincsSetup cfgC6)
                    (Lincs.mainPass (Pipeline.lincsSetup cfgC6)
                      (Pipeline.integratedX cfgC6)) 0)
            • Lincs.dirU (Pipeline.lincsSetup cfgC6) 0 :=
          singlePass_b (Pipeline.lincsSetup cfgC6) ⟨0, 1, 5, (1 : ℝ) / 2⟩ hcL hab
            (Lincs.iterRhs (Pipeline.lincsSetup cfgC6)
              (Lincs.mainPass (Pipeline.lincsSetup cfgC6) (Pipeline.integratedX cfgC6)))
            (Lincs.mainPass (Pipeline.lincsSetup cfgC6) (Pipeline.integratedX cfgC6))
      _ = (⟨4, 4, 0⟩ : V3 ℝ) := by
          rw [show ((⟨0, 1, 5, (1 : ℝ) / 2⟩ : DistConstraint).b : ℕ) = 1 from rfl,
            hp1b, hxI1, hR0i, hu,
            show (Pipeline.lincsSetup cfgC6).invm 1 = 1 from rfl,
            show ((1 : ℝ) * Lincs.sFac (Pipeline.lincsSetup cfgC6) 0
                * (Lincs.sFac (Pipeline.lincsSetup cfgC6) 0 * 2)) = 1 from by
              linear_combination 2 * hS]
          ext <;> norm_num
  have hsum : (∑ i ∈ Finset.range cfgC6.nAtoms,
      cfgC6.mass i • M3.outer (Pipeline.stepX cfgC6 i - Pipeline.integratedX cfgC6 i)
        (Pipeline.integratedX cfgC6 i))
      = cfgC6.mass 0 • M3.outer (Pipeline.stepX cfgC6 0 - Pipeline.integratedX cfgC6 0)
          (Pipeline.integratedX cfgC6 0)
        + cfgC6.mass 1 • M3.outer (Pipeline.stepX cfgC6 1 - Pipeline.integratedX cfgC6 1)
            (Pipeline.integratedX cfgC6 1) := by
    rw [show cfgC6.nAtoms = 2 from rfl, Finset.sum_range_succ, Finset.sum_range_one]
  intro hsym
  obtain ⟨h1, h2, h3⟩ := hsym
  have hv : (Pipeline.fullStep cfgC6).virial
      = ((-1 / 2) / cfgC6.dt ^ 2)
        • (cfgC6.mass 0 • M3.outer (Pipeline.stepX cfgC6 0 - Pipeline.integratedX cfgC6 0)
              (Pipeline.integratedX cfgC6 0)
            + cfgC6.mass 1 • M3.outer (Pipeline.stepX cfgC6 1 - Pipeline.integratedX cfgC6 1)
                (Pipeline.integratedX cfgC6 1)) := by
    show (0 : M3 ℝ) + Pipeline.constraintVirial cfgC6 = _
    rw [Pipeline.constraintVirial, hsum, zero_add]
  rw [hv, hsx0, hsx1, hxI0, hxI1] at h1
  rw [show (⟨1, 0, 0⟩ : V3 ℝ) - 0 = ⟨1, 0, 0⟩ from by ext <;> norm_num,
    show (⟨4, 4, 0⟩ : V3 ℝ) - (⟨5, 4, 0⟩ : V3 ℝ) = ⟨-1, 0, 0⟩ from by
      ext <;> norm_num] at h1
  rw [show cfgC6.dt = (1 : ℝ) from rfl, show cfgC6.mass 0 = (1 : ℝ) from rfl,
    show cfgC6.mass 1 = (1 : ℝ) from rfl] at h1
  simp [M3.outer] at h1

/-- C5: when virial computation is requested the virial accumulator starts
from zero and accumulates -1/2 dt^-2 times the mass-weighted sum of outer
products of each particle's constraint-correction displacement with its
pre-correction position; when it is not requested the incoming virial tensor
is returned untouched. -/
theorem claim5_virial_gating (cfg : StepInputs) :
    (Pipeline.fullStep cfg).virial
      = (if cfg.computeVirial then
           (0 : M3 ℝ)
             + ((-1 / 2) / cfg.dt ^ 2)
               • ∑ i ∈ Finset.range cfg.nAtoms,
                   cfg.mass i
                     • M3.outer (Pipeline.stepX cfg i - Pipeline.integratedX cfg i)
                         (Pipeline.integratedX cfg i)
         else cfg.virialIn) := rfl

/-- C9: a step is atomic from the caller's perspective: either scratch
allocation succeeds and every pipeline stage is enqueued on the stream, or
allocation fails, the failure is propagated and the stream is left exactly
as it was (no partial step enqueued). -/
theorem claim9_step_atomicity (allocOk : Bool) (s : DeviceStream) :
    ((enqueueStep allocOk s).1.ops = s.ops ++ pipelineOps ∧ (enqueueStep allocOk s).2 = none)
      ∨ ((enqueueStep allocOk s).1 = s
          ∧ (enqueueStep allocOk s).2 = some StepError.allocFailure) := by
  cases allocOk
  · right; simp [enqueueStep]
  · left; simp [enqueueStep]

/-- C10: when the buffer-binding operation recorded zero temperature scaling
groups, the integration applies no temperature scaling: the flattened
per-particle factor is 1 for every particle and the velocity update reduces
to the unscaled leapfrog formula. -/
theorem claim10_zero_temp_groups (cfg : StepInputs)
    (h : cfg.numTempScaleValues = 0) (i : ℕ) :
    Pipeline.tempScale cfg i = 1
      ∧ Pipeline.integratedV cfg i
          = (if cfg.doPressureCouple then
               cfg.prMatrix.mulVec (cfg.v i + (cfg.dt * cfg.invMass i) • cfg.f i)
             else cfg.v i + (cfg.dt * cfg.invMass i) • cfg.f i) := by
  have h1 : Pipeline.tempScale cfg i = 1 := by simp [Pipeline.tempScale, h]
  exact ⟨h1, by simp only [Pipeline.integratedV, h1, one_smul]⟩

/-- Witness for C10 at the concrete baseline configuration. -/
theorem claim10_zero_temp_groups_witness :
    Pipeline.tempScale cfg0 0 = 1
      ∧ Pipeline.integratedV cfg0 0
          = (if cfg0.doPressureCouple then
               cfg0.prMatrix.mulVec (cfg0.v 0 + (cfg0.dt * cfg0.invMass 0) • cfg0.f 0)
             else cfg0.v 0 + (cfg0.dt * cfg0.invMass 0) • cfg0.f 0) :=
  claim10_zero_temp_groups cfg0 rfl 0

end UCGpu
